import Mathlib

/-!
Verification of the document structuring / editing / mapping-validation core
(`document_processor.py`, `document_editor.py`, `mapping_generator.py`).

Modelling conventions, which follow the Python source:
* A Python `str` that is indexed character-by-character (the document text,
  sentence patterns, search windows) is modelled as `List Char`; other strings
  (ids, titles, dictionary keys, error messages) are Lean `String`s.
* Python dictionaries with dynamic key sets (sentence records, metadata) are
  modelled as association lists `PyDict`; dictionary item access raises
  `KeyError`, which is modelled with `Except PyErr`.
* Heterogeneous dictionary values are modelled by the inductive `Val`.
* The NLTK call `sent_tokenize(text)` (with its regex fallback) is an external
  collaborator of this repository; `structure_document` therefore receives the
  segmenter's output explicitly as the list `sentences_texts`.
* `difflib.SequenceMatcher(None, a, b).ratio() > 0.9` is a float comparison
  `2.0*M/T > 0.9`; since both sides are quotients with denominators far below
  the scale at which double rounding (about 1e-16) could cross the rational
  gap (at least 1/(10*T)), it is exactly the integer test `20*M > 9*T`, which
  is how the acceptance test is written here.
-/

/-- Heterogeneous values stored in Python dictionaries of this code base:
strings, non-negative integers, and lists of line numbers. -/
inductive Val where
  | s (v : String)
  | n (v : Nat)
  | ns (v : List Nat)
deriving DecidableEq, Repr

/-- Python exceptions raised by the modelled code. -/
inductive PyErr where
  | keyError (k : String)
  | valueError (msg : String)
  | typeError
  | indexError
deriving DecidableEq, Repr

/-- A Python dictionary with string keys, as an insertion-ordered association
list (keys are unique, as in a Python dict). -/
abbrev PyDict := List (String × Val)

/-- First-match association lookup on a `PyDict` (Python `d.get(k)` /
`k in d` test). -/
def dictGet : PyDict → String → Option Val
  | [], _ => none
  | (k', v) :: rest, k => if k' = k then some v else dictGet rest k

/-- Python `d[k]`: the value at `k`, raising `KeyError` when absent. -/
def getItem (d : PyDict) (k : String) : Except PyErr Val :=
  match dictGet d k with
  | some v => .ok v
  | none => .error (.keyError k)

/-- Python `d[k] = v`: overwrite in place when the key exists (keeping its
position, as a Python dict does), otherwise append. -/
def dictUpdate (d : PyDict) (k : String) (v : Val) : PyDict :=
  if (dictGet d k).isSome then d.map (fun p => if p.1 = k then (k, v) else p)
  else d ++ [(k, v)]

/-- Association lookup with `Nat` keys (used for `char_to_line_map` and for
`SequenceMatcher`'s `j2len` dictionary). -/
def lookupNat : List (Nat × Nat) → Nat → Option Nat
  | [], _ => none
  | (k', v) :: rest, k => if k' = k then some v else lookupNat rest k

/-- Python `v in ids` where `ids` is a list of strings and `v` a dictionary
value: true exactly when `v` is a string occurring in the list. -/
def valInStrList (v : Val) (ids : List String) : Bool :=
  ids.any (fun x => v = Val.s x)

/-- Substring test on character lists (used only to state that an error or
warning message mentions an id). -/
def listHasSub : List Char → List Char → Bool
  | [], sub => sub.isEmpty
  | c :: t, sub => sub.isPrefixOf (c :: t) || listHasSub t sub

/-- Substring test on strings. -/
def strHasSub (hay sub : String) : Bool := listHasSub hay.toList sub.toList

/-- The characters Python's default `str.split()` / `str.strip()` treat as
whitespace (ASCII part; the documents in this repository use these). -/
def isPySpace (c : Char) : Bool :=
  c = ' ' || c = '\t' || c = '\n' || c = '\r' || c = '\x0b' || c = '\x0c'

/-- Python `s.strip()`: drop leading and trailing whitespace. -/
def pyStrip (s : List Char) : List Char :=
  ((s.dropWhile isPySpace).reverse.dropWhile isPySpace).reverse

/-- Helper for Python `s.split()` (no separator): accumulate the current word
(reversed) and cut at whitespace runs, discarding empty chunks. -/
def pyWordsAux : List Char → List Char → List (List Char)
  | [], acc => if acc.isEmpty then [] else [acc.reverse]
  | c :: rest, acc =>
    if isPySpace c then
      if acc.isEmpty then pyWordsAux rest [] else acc.reverse :: pyWordsAux rest []
    else pyWordsAux rest (c :: acc)

/-- Python `s.split()`: the whitespace-delimited words of `s`. -/
def pySplitWs (s : List Char) : List (List Char) := pyWordsAux s []

/-- Python `' '.join(s.split())`: whitespace normalization as used by
`fuzzy_search` (collapse every whitespace run to a single space, trim). -/
def normWs (s : List Char) : List Char := List.intercalate [' '] (pySplitWs s)

/-- Python `text.split('\n')`: split on newline, dropping the delimiter; the
empty string yields `[""]`. -/
def pySplitNl : List Char → List (List Char)
  | [] => [[]]
  | c :: rest =>
    if c = '\n' then [] :: pySplitNl rest
    else
      match pySplitNl rest with
      | h :: t => (c :: h) :: t
      | [] => [[c]]

/-- Python `text.find(sub, start)`: smallest `i ≥ start` with `sub` occurring
at `i` (checked positions are `start, …, len(text) - len(sub)`), else `-1`. -/
def pyFind (text sub : List Char) (start : Nat) : Int :=
  match (List.range' start (text.length + 1 - sub.length - start)).find?
      (fun i => sub.isPrefixOf (text.drop i)) with
  | some i => (i : Int)
  | none => -1

/-!
Model of `difflib.SequenceMatcher(None, a, b)` (CPython), specialized to `isjunk=None`
(so the junk set `bjunk` is empty and the two junk-extension loops of
`find_longest_match` never fire) and `autojunk=True` (characters of `b` count
as popular, and are removed from `b2j`, when `len(b) >= 200` and they occur
more than `len(b)//100 + 1` times).
-/

/-- Model of `b2j[c]`: the increasing list of positions of `c` in `b`, with popular
characters removed by the autojunk heuristic. -/
def b2j (b : List Char) (c : Char) : List Nat :=
  let idxs := (List.range b.length).filter (fun j => b.get? j = some c)
  if 200 ≤ b.length ∧ b.length / 100 + 1 < idxs.length then [] else idxs

/-- Python `a[i] == b[j]` with both indices in range (used by the extension
loops of `find_longest_match`). -/
def charAtEq (x y : Option Char) : Bool :=
  match x, y with
  | some c, some d => c = d
  | _, _ => false

/-- The running best match of `find_longest_match`: `a[besti .. besti+bestsize)`
equals `b[bestj .. bestj+bestsize)`. -/
structure Best where
  besti : Nat
  bestj : Nat
  bestsize : Nat
deriving DecidableEq, Repr

/-- Inner loop of `find_longest_match` over `b2j[a[i]]` (with the `continue`
on `j < blo` and the `break` on `j >= bhi`), building the new `j2len`
dictionary and updating the best match. -/
def flmInner (i blo bhi : Nat) (j2len : List (Nat × Nat)) :
    List Nat → List (Nat × Nat) → Best → List (Nat × Nat) × Best
  | [], newj2len, best => (newj2len, best)
  | j :: rest, newj2len, best =>
    if j < blo then flmInner i blo bhi j2len rest newj2len best
    else if bhi ≤ j then (newj2len, best)
    else
      let k := (if j = 0 then 0 else (lookupNat j2len (j - 1)).getD 0) + 1
      let best' := if best.bestsize < k then ⟨i + 1 - k, j + 1 - k, k⟩ else best
      flmInner i blo bhi j2len rest ((j, k) :: newj2len) best'

/-- Outer loop of `find_longest_match` over `i in range(alo, ahi)`. -/
def flmOuter (a b : List Char) (blo bhi : Nat) :
    List Nat → List (Nat × Nat) → Best → Best
  | [], _, best => best
  | i :: rest, j2len, best =>
    let js := match a.get? i with
      | some c => b2j b c
      | none => []
    let (newj2len, best') := flmInner i blo bhi j2len js [] best
    flmOuter a b blo bhi rest newj2len best'

/-- Loop `while besti > alo and bestj > blo and a[besti-1] == b[bestj-1]` (the
non-junk lower extension; the junk test is vacuous with `isjunk=None`).
The fuel starts at `besti`, which bounds the number of iterations. -/
def flmExtendLo (a b : List Char) (alo blo : Nat) : Nat → Best → Best
  | 0, best => best
  | fuel + 1, best =>
    if alo < best.besti ∧ blo < best.bestj ∧
        charAtEq (a.get? (best.besti - 1)) (b.get? (best.bestj - 1)) then
      flmExtendLo a b alo blo fuel ⟨best.besti - 1, best.bestj - 1, best.bestsize + 1⟩
    else best

/-- Loop `while besti+bestsize < ahi and bestj+bestsize < bhi and
a[besti+bestsize] == b[bestj+bestsize]` (non-junk upper extension). -/
def flmExtendHi (a b : List Char) (ahi bhi : Nat) : Nat → Best → Best
  | 0, best => best
  | fuel + 1, best =>
    if best.besti + best.bestsize < ahi ∧ best.bestj + best.bestsize < bhi ∧
        charAtEq (a.get? (best.besti + best.bestsize)) (b.get? (best.bestj + best.bestsize)) then
      flmExtendHi a b ahi bhi fuel ⟨best.besti, best.bestj, best.bestsize + 1⟩
    else best

/-- Model of `SequenceMatcher.find_longest_match(alo, ahi, blo, bhi)`. -/
def find_longest_match (a b : List Char) (alo ahi blo bhi : Nat) : Best :=
  let best := flmOuter a b blo bhi (List.range' alo (ahi - alo)) [] ⟨alo, blo, 0⟩
  let best := flmExtendLo a b alo blo best.besti best
  flmExtendHi a b ahi bhi ahi best

/-- The total size of the matching blocks found by
`SequenceMatcher.get_matching_blocks`'s divide-and-conquer queue (the order of
queue processing, the final sort and the merging of adjacent blocks do not
change the total size, which is all `ratio()` uses). Each recursive call is on
a strictly smaller pair of intervals, so fuel `(ahi-alo)+(bhi-blo)+1` makes
the recursion exact. -/
def matchSumAux (a b : List Char) : Nat → Nat → Nat → Nat → Nat → Nat
  | 0, _, _, _, _ => 0
  | fuel + 1, alo, ahi, blo, bhi =>
    let m := find_longest_match a b alo ahi blo bhi
    if m.bestsize = 0 then 0
    else
      m.bestsize
        + (if alo < m.besti ∧ blo < m.bestj then
            matchSumAux a b fuel alo m.besti blo m.bestj else 0)
        + (if m.besti + m.bestsize < ahi ∧ m.bestj + m.bestsize < bhi then
            matchSumAux a b fuel (m.besti + m.bestsize) ahi (m.bestj + m.bestsize) bhi else 0)

/-- The value `matches`: the sum of the sizes of all matching blocks of
`SequenceMatcher(None, a, b)`. -/
def matchesTotal (a b : List Char) : Nat :=
  matchSumAux a b (a.length + b.length + 1) 0 a.length 0 b.length

/-- The test `SequenceMatcher(None, a, b).ratio() > 0.9`, i.e. `2*M/T > 0.9` with
`M = matchesTotal a b` and `T = len(a)+len(b)` (`ratio()` is defined as `1.0`
when `T = 0`); as an exact integer comparison this is `20*M > 9*T`. -/
def ratioGtPoint9 (a b : List Char) : Bool :=
  if a.length + b.length = 0 then true
  else 9 * (a.length + b.length) < 20 * matchesTotal a b

/-- Scan loop of `fuzzy_search`: return the first window position whose
normalized window is more than 90% similar to the normalized pattern. -/
def fuzzySearchGo (text pn : List Char) (w : Nat) : List Nat → Int
  | [] => -1
  | i :: rest =>
    if ratioGtPoint9 pn (normWs ((text.drop i).take w)) then (i : Int)
    else fuzzySearchGo text pn w rest

/-- Model of `fuzzy_search(text, pattern, start_pos)` from `document_processor.py`:
whitespace-normalize the pattern, slide a window of `len(pattern) + 50`
characters over `text` starting at `start_pos` (positions
`start_pos, …, len(text) - len(pattern)`), and return the first position
whose normalized window has similarity ratio above 0.9, else `-1`. -/
def fuzzy_search (text pattern : List Char) (start_pos : Nat) : Int :=
  let pattern_normalized := normWs pattern
  let pattern_len := pattern.length
  let search_window := pattern_len + 50
  fuzzySearchGo text pattern_normalized search_window
    (List.range' start_pos (text.length + 1 - pattern_len - start_pos))

/-!
Models of `build_char_to_line_map` and `structure_document` from `document_processor.py`.
-/

/-- One entry of `line_data`: the dictionary
`{"line_num": …, "text": …, "start": …, "end": …, "sentence_ids": […]}`
(this dictionary's key set is fixed by the structurer, so it is modelled as a
record; `end` is a Lean keyword, hence the field name `end_`). -/
structure LineRecord where
  line_num : Nat
  text : List Char
  start : Nat
  end_ : Nat
  sentence_ids : List String
deriving DecidableEq, Repr

/-- A sentence record: a Python dictionary (the structurer stores the keys
`id`, `text`, `lines`, `doc_id`; the editor creates dictionaries with the keys
`sentence_id`, `text`, `start_char`, `end_char`). -/
abbrev Sent := PyDict

/-- The `content` dictionary of a structured document. -/
structure DocContent where
  lines : List LineRecord
  sentences : List Sent
deriving DecidableEq, Repr

/-- A structured document: the fixed-shape result dictionary of
`structure_document` (`doc_id`, `metadata`, `content`). -/
structure SDoc where
  doc_id : String
  metadata : PyDict
  content : DocContent
deriving DecidableEq, Repr

instance : Inhabited SDoc := ⟨⟨"", [], ⟨[], []⟩⟩⟩

/-- Loop of `build_char_to_line_map(lines_text)`: walk the lines with a
1-based line counter and a running character offset, recording every offset
inside a line into `char_to_line_map` and emitting one `LineRecord` per line;
the offset advances by `len(line)+1` to skip the dropped `'\n'`. -/
def buildAux : List (List Char) → Nat → Nat → List (Nat × Nat) × List LineRecord
  | [], _, _ => ([], [])
  | line_text :: rest, line_num, pos =>
    let res := buildAux rest (line_num + 1) (pos + line_text.length + 1)
    ((List.range' pos line_text.length).map (fun p => (p, line_num)) ++ res.1,
      ⟨line_num, line_text, pos, pos + line_text.length, []⟩ :: res.2)

/-- Model of `build_char_to_line_map(lines_text)` from `document_processor.py`. -/
def build_char_to_line_map (lines_text : List (List Char)) :
    List (Nat × Nat) × List LineRecord :=
  buildAux lines_text 1 0

/-- The sentence record appended by `structure_document`
(`{"id": …, "text": …, "lines": …, "doc_id": …}`). -/
def mkSentRecord (sent_id : String) (sent_text : List Char) (covered : List Nat)
    (doc_id : String) : Sent :=
  [("id", Val.s sent_id), ("text", Val.s (String.mk sent_text)),
   ("lines", Val.ns covered), ("doc_id", Val.s doc_id)]

/-- Step 5 of `structure_document`: append `sent_id` to
`line_data[line_num-1]["sentence_ids"]` for every covered line number that is
within bounds. -/
def updateLineData (line_data : List LineRecord) (covered : List Nat)
    (sent_id : String) : List LineRecord :=
  covered.foldl
    (fun ld line_num =>
      if 1 ≤ line_num ∧ line_num ≤ ld.length then
        match ld.get? (line_num - 1) with
        | some r => ld.set (line_num - 1) {r with sentence_ids := r.sentence_ids ++ [sent_id]}
        | none => ld
      else ld)
    line_data

/-- Steps 3–5 of `structure_document`: for each segmented sentence (with its
0-based `sent_idx` from `enumerate`), strip it, locate it from the monotonic
cursor `search_pos` (exact `text.find` first, then `fuzzy_search`), skip it
when empty or unlocatable, compute the sorted set of covered lines via
`char_to_line_map`, update `line_data`, and record the sentence under the id
`f"{doc_id}_s{sent_idx+1}"`. Each element of the returned sentence list also
carries the located span `(sent_start, sent_end)`, which the source keeps in
loop-local variables; `structure_document` discards the spans. -/
def sentLoop (text : List Char) (doc_id : String)
    (char_to_line_map : List (Nat × Nat)) :
    Nat → List (List Char) → Nat → List LineRecord →
    List LineRecord × List (Nat × Nat × Sent)
  | _, [], _, line_data => (line_data, [])
  | sent_idx, raw :: rest, search_pos, line_data =>
    let sent_text := pyStrip raw
    if sent_text.isEmpty then
      sentLoop text doc_id char_to_line_map (sent_idx + 1) rest search_pos line_data
    else
      let f0 := pyFind text sent_text search_pos
      let found := if f0 = -1 then fuzzy_search text sent_text search_pos else f0
      if found = -1 then
        sentLoop text doc_id char_to_line_map (sent_idx + 1) rest search_pos line_data
      else
        let sent_start := found.toNat
        let sent_end := sent_start + sent_text.length
        let covered := List.insertionSort (· ≤ ·)
          (((List.range' sent_start (min sent_end text.length - sent_start)).filterMap
              (fun p => lookupNat char_to_line_map p)).dedup)
        let sent_id := doc_id ++ "_s" ++ toString (sent_idx + 1)
        let line_data' := updateLineData line_data covered sent_id
        let res := sentLoop text doc_id char_to_line_map (sent_idx + 1) rest sent_end line_data'
        (res.1, (sent_start, sent_end, mkSentRecord sent_id sent_text covered doc_id) :: res.2)

/-- Model of `structure_document(text, doc_id, title, doc_type, metadata)` from
`document_processor.py`. The segmenter output (`sent_tokenize` with regex
fallback, an external collaborator) is the parameter `sentences_texts`; the
final metadata is the engine-computed dictionary updated with the
caller-supplied entries (`{**engine, **(metadata or {})}` — later entries
overwrite). `doc_type` is accepted and unused, as in the source. -/
def structure_document (text : List Char) (sentences_texts : List (List Char))
    (doc_id title : String) (doc_type : String) (metadata : Option PyDict) : SDoc :=
  let lines_text := pySplitNl text
  let built := build_char_to_line_map lines_text
  let looped := sentLoop text doc_id built.1 0 sentences_texts 0 built.2
  let line_data' := looped.1
  let sentence_data := looped.2.map (fun x => x.2.2)
  { doc_id := doc_id
    metadata :=
      ((metadata.getD []).foldl (fun d p => dictUpdate d p.1 p.2)
        [("title", Val.s title), ("total_lines", Val.n line_data'.length),
         ("total_sentences", Val.n sentence_data.length),
         ("algorithm_version", Val.s "v2")])
    content := { lines := line_data', sentences := sentence_data } }

/-- The located spans `(sent_start, sent_end)` of the sentences stored by
`structure_document`, in storage order (the loop's internal cursor data). -/
def sentenceSpans (text : List Char) (sentences_texts : List (List Char))
    (doc_id : String) : List (Nat × Nat) :=
  ((sentLoop text doc_id (build_char_to_line_map (pySplitNl text)).1 0 sentences_texts 0
      (build_char_to_line_map (pySplitNl text)).2).2).map (fun x => (x.1, x.2.1))

/-!
Model of `StructuredDocumentEditor` from `document_editor.py`. The editor deep-copies
the document at construction and mutates only the copy; the value-level
functions below compute the result of those mutations, and the heap-level
wrappers further down model the copy/mutation discipline itself.
-/

/-- The list comprehension of `delete_sentences`:
`[sent for sent in sentences if sent['sentence_id'] not in sentence_ids]`,
evaluating `sent['sentence_id']` left to right (a missing key raises
`KeyError`). -/
def filterRemaining : List Sent → List String → Except PyErr (List Sent)
  | [], _ => .ok []
  | sent :: rest, sentence_ids => do
    let v ← getItem sent "sentence_id"
    let tail ← filterRemaining rest sentence_ids
    if valInStrList v sentence_ids then pure tail else pure (sent :: tail)

/-- Method `StructuredDocumentEditor.delete_sentences` (value level): keep the
sentences whose `sentence_id` is not in the given list. -/
def StructuredDocumentEditor.delete_sentences (doc : SDoc) (sentence_ids : List String) :
    Except PyErr SDoc := do
  let remaining ← filterRemaining doc.content.sentences sentence_ids
  pure {doc with content := {doc.content with sentences := remaining}}

/-- Python `Union[str, int]` for the editor's `position` argument. -/
inductive PyPos where
  | str (s : String)
  | int (i : Int)
deriving DecidableEq, Repr

/-- The id-resolution loop of `insert_sentence` for a string `position`:
`for idx, sent in enumerate(sentences): if sent['sentence_id'] == position`. -/
def findInsertIdx : List Sent → String → Nat → Except PyErr (Option Nat)
  | [], _, _ => .ok none
  | sent :: rest, position, idx => do
    let v ← getItem sent "sentence_id"
    if v = Val.s position then pure (some idx)
    else findInsertIdx rest position (idx + 1)

/-- Python `list.insert(i, x)`: a negative index counts from the end; the
index is clamped into `[0, len]`. -/
def pyInsert (l : List Sent) (i : Int) (x : Sent) : List Sent :=
  let j : Int := if i < 0 then max 0 (i + l.length) else min i (l.length : Int)
  l.take j.toNat ++ [x] ++ l.drop j.toNat

/-- Python `l[i] = x`: a negative index counts from the end; an index out of
range raises `IndexError`. -/
def pySetItem (l : List Sent) (i : Int) (x : Sent) : Except PyErr (List Sent) :=
  let j : Int := if i < 0 then i + l.length else i
  if 0 ≤ j ∧ j < (l.length : Int) then .ok (l.set j.toNat x)
  else .error .indexError

/-- Method `StructuredDocumentEditor.insert_sentence` (value level): resolve
`position` (a sentence id or a raw index), build the new sentence dictionary
`{"sentence_id": f"inserted_{len(sentences)}", "text": …, "start_char": 0,
"end_char": len(new_sentence)}`, and place it according to `placement`
(`before` / `after` / `replace`); an unresolved string position raises
`ValueError`, an unknown placement raises `ValueError`. -/
def StructuredDocumentEditor.insert_sentence (doc : SDoc) (new_sentence : String)
    (position : PyPos) (placement : String) : Except PyErr SDoc := do
  let sentences := doc.content.sentences
  let insert_idx : Option Int ←
    match position with
    | .str p => do
      let found ← findInsertIdx sentences p 0
      pure (found.map (fun n => (n : Int)))
    | .int i => pure (some i)
  match insert_idx with
  | none => .error (.valueError "Position not found")
  | some idx =>
    let new_sent_obj : Sent :=
      [("sentence_id", Val.s ("inserted_" ++ toString sentences.length)),
       ("text", Val.s new_sentence), ("start_char", Val.n 0),
       ("end_char", Val.n new_sentence.length)]
    let sentences' ←
      if placement = "before" then pure (pyInsert sentences idx new_sent_obj)
      else if placement = "after" then pure (pyInsert sentences (idx + 1) new_sent_obj)
      else if placement = "replace" then pySetItem sentences idx new_sent_obj
      else .error (.valueError ("Invalid placement: " ++ placement))
    pure {doc with content := {doc.content with sentences := sentences'}}

/-- The update loop of `update_sentence`: find the first sentence whose
`sentence_id` equals the target, set its `text` and recompute `end_char` as
`start_char + len(new_text)` (a non-integer `start_char` would raise
`TypeError`), then `break`. A sentence dictionary without the `sentence_id`
key raises `KeyError`; no match leaves the list unchanged. -/
def updateSentLoop : List Sent → String → String → Except PyErr (List Sent)
  | [], _, _ => .ok []
  | sent :: rest, sentence_id, new_text => do
    let v ← getItem sent "sentence_id"
    if v = Val.s sentence_id then do
      let sc ← getItem sent "start_char"
      match sc with
      | Val.n k =>
        pure (dictUpdate (dictUpdate sent "text" (Val.s new_text)) "end_char"
            (Val.n (k + new_text.length)) :: rest)
      | _ => .error .typeError
    else do
      let rest' ← updateSentLoop rest sentence_id new_text
      pure (sent :: rest')

/-- Method `StructuredDocumentEditor.update_sentence` (value level). -/
def StructuredDocumentEditor.update_sentence (doc : SDoc) (sentence_id : String)
    (new_text : String) : Except PyErr SDoc := do
  let sentences' ← updateSentLoop doc.content.sentences sentence_id new_text
  pure {doc with content := {doc.content with sentences := sentences'}}

/-- Helper `delete_sentences_from_doc(structured_doc, sentence_ids)`: construct an
editor over a deep copy and delete (the input value is untouched; the
copy/mutation discipline is modelled explicitly by the heap-level functions
below). -/
def delete_sentences_from_doc (structured_doc : SDoc) (sentence_ids : List String) :
    Except PyErr SDoc :=
  StructuredDocumentEditor.delete_sentences structured_doc sentence_ids

/-- Helper `insert_sentence_to_doc(structured_doc, new_sentence, position, placement)`. -/
def insert_sentence_to_doc (structured_doc : SDoc) (new_sentence : String)
    (position : PyPos) (placement : String) : Except PyErr SDoc :=
  StructuredDocumentEditor.insert_sentence structured_doc new_sentence position placement

/-- Helper `update_sentence_in_doc(structured_doc, sentence_id, new_text)`. -/
def update_sentence_in_doc (structured_doc : SDoc) (sentence_id : String)
    (new_text : String) : Except PyErr SDoc :=
  StructuredDocumentEditor.update_sentence structured_doc sentence_id new_text

/-!
Heap model of the editor's clone-then-modify discipline: documents live at
addresses in a heap (Python object identity at document granularity);
`StructuredDocumentEditor.__init__` deep-copies the caller's document into a
fresh address, and the mutating methods write only to that fresh address.
-/

/-- The object heap: one structured document per address. -/
abbrev Heap := List SDoc

/-- Model of `copy.deepcopy` in `StructuredDocumentEditor.__init__`: allocate a fresh
address holding a copy of the document at `a`. Returns (heap, editor's
`self.doc` address). -/
def editorInit (h : Heap) (a : Nat) : Heap × Nat :=
  (h ++ [h.getD a default], h.length)

/-- Heap-level `delete_sentences_from_doc`: construct the editor (deep copy),
run the deletion on the editor's own document, and write the result back to
the editor's address; on `KeyError` the partial editor state remains but the
caller's document is never written. Returns the new heap and the address of
the returned document (or the propagated exception). -/
def delete_sentences_from_doc_heap (h : Heap) (a : Nat) (sentence_ids : List String) :
    Heap × Except PyErr Nat :=
  let h1 := (editorInit h a).1
  let e := (editorInit h a).2
  match StructuredDocumentEditor.delete_sentences (h1.getD e default) sentence_ids with
  | .ok d' => (h1.set e d', .ok e)
  | .error err => (h1, .error err)

/-- Heap-level `insert_sentence_to_doc`. -/
def insert_sentence_to_doc_heap (h : Heap) (a : Nat) (new_sentence : String)
    (position : PyPos) (placement : String) : Heap × Except PyErr Nat :=
  let h1 := (editorInit h a).1
  let e := (editorInit h a).2
  match StructuredDocumentEditor.insert_sentence (h1.getD e default) new_sentence position placement with
  | .ok d' => (h1.set e d', .ok e)
  | .error err => (h1, .error err)

/-- Heap-level `update_sentence_in_doc`. -/
def update_sentence_in_doc_heap (h : Heap) (a : Nat) (sentence_id : String)
    (new_text : String) : Heap × Except PyErr Nat :=
  let h1 := (editorInit h a).1
  let e := (editorInit h a).2
  match StructuredDocumentEditor.update_sentence (h1.getD e default) sentence_id new_text with
  | .ok d' => (h1.set e d', .ok e)
  | .error err => (h1, .error err)

/-!
Model of `validate_mappings` from `mapping_generator.py`.
-/

/-- The mapping object: the two direction dictionaries
`generated_doc_to_source_doc` and `source_doc_to_generated_doc`
(`mappings.get(…, {})` in the source; an absent key behaves as the empty
dictionary, i.e. the empty association list). -/
structure Mappings where
  generated_doc_to_source_doc : List (String × List String)
  source_doc_to_generated_doc : List (String × List String)
deriving DecidableEq, Repr

/-- First-match lookup in a direction map (Python `d.get(k, [])`). -/
def mapGet : List (String × List String) → String → List String
  | [], _ => []
  | (k', v) :: rest, k => if k' = k then v else mapGet rest k

/-- Collect `sent['id']` over a sentence list (a sentence dictionary without
the `id` key raises `KeyError`). -/
def collectIdsSents : List Sent → Except PyErr (List Val)
  | [] => .ok []
  | s :: ss => do
    let v ← getItem s "id"
    let vs ← collectIdsSents ss
    pure (v :: vs)

/-- Collect `sent['id']` over all sentences of a list of documents (the
validator's id-set construction; membership in the resulting collection is
all the sets are used for, so a list models them). -/
def collectIds : List SDoc → Except PyErr (List Val)
  | [] => .ok []
  | doc :: rest => do
    let here ← collectIdsSents doc.content.sentences
    let there ← collectIds rest
    pure (here ++ there)

/-- The existence errors contributed by one direction map: one error per key
that is not an id of the key-side document(s), and one per listed id that is
not an id of the value-side document(s), in iteration order. -/
def existenceErrors (m : List (String × List String)) (keyIds valIds : List Val)
    (keyMsg valMsg : String) : List String :=
  m.flatMap (fun p =>
    (if Val.s p.1 ∈ keyIds then [] else [keyMsg ++ p.1])
      ++ p.2.flatMap (fun x => if Val.s x ∈ valIds then [] else [valMsg ++ x]))

/-- The bidirectional-consistency warnings: for every pair `(proc_id,
source_id)` implied by the forward map, a warning when the reverse map's entry
for `source_id` does not list `proc_id`. -/
def consistencyWarnings (mappings : Mappings) : List String :=
  mappings.generated_doc_to_source_doc.flatMap (fun p =>
    p.2.flatMap (fun source_id =>
      let reverse_mapping := mapGet mappings.source_doc_to_generated_doc source_id
      if p.1 ∈ reverse_mapping then []
      else ["양방향 불일치: " ++ p.1 ++ " → " ++ source_id ++ "는 있지만 역방향 매핑 없음"]))

/-- Model of `validate_mappings(mappings, structured_source_docs,
structured_processed_doc)` from `mapping_generator.py`: collect the sentence
ids of both sides, emit one error per nonexistent referenced id in each
direction map (keys and listed ids), then one warning per forward pair whose
reverse entry is missing, and return `{"errors": …, "warnings": …}`. -/
def validate_mappings (mappings : Mappings) (structured_source_docs : List SDoc)
    (structured_processed_doc : SDoc) : Except PyErr (List String × List String) := do
  let source_sentence_ids ← collectIds structured_source_docs
  let processed_sentence_ids ← collectIds [structured_processed_doc]
  let errors :=
    existenceErrors mappings.generated_doc_to_source_doc
      processed_sentence_ids source_sentence_ids
      "존재하지 않는 처리 문서 문장 ID: " "존재하지 않는 소스 문장 ID: "
    ++ existenceErrors mappings.source_doc_to_generated_doc
      source_sentence_ids processed_sentence_ids
      "존재하지 않는 소스 문장 ID: " "존재하지 않는 처리 문서 문장 ID: "
  let warnings := consistencyWarnings mappings
  pure (errors, warnings)

/-!
Fixtures for the fuzzy-threshold claim.
-/

/-- A 40-character pattern without whitespace. -/
def c5pat : List Char := "abcdefghijklmnopqrstuvwxyzABCDEFGHIJKLMN".toList

/-- The pattern with a newline inserted every 10 characters (3 insertions). -/
def c5occ10 : List Char := "abcdefghij\nklmnopqrst\nuvwxyzABCD\nEFGHIJKLMN".toList

/-- A 500-character haystack containing `c5occ10` at offset 0, followed by a
whitespace run and filler text. -/
def c5hay500 : List Char := c5occ10 ++ List.replicate 47 ' ' ++ List.replicate 410 'z'

/-- The pattern with a newline inserted every 5 characters (7 insertions in 40
characters: 17.5% character-level edits, more than 10%). -/
def c5occ5 : List Char := "abcde\nfghij\nklmno\npqrst\nuvwxy\nzABCD\nEFGHI\nJKLMN".toList

/-- A haystack whose only occurrence of the pattern is `c5occ5`. -/
def c5hay5 : List Char := c5occ5 ++ List.replicate 43 ' '

set_option maxRecDepth 100000

/-- Fixture: a source document whose only sentence has id `s1`. -/
def c7src : SDoc := ⟨"src", [], ⟨[], [[("id", Val.s "s1")]]⟩⟩

/-- Fixture: a generated document whose only sentence has id `g1`. -/
def c7gen : SDoc := ⟨"gen", [], ⟨[], [[("id", Val.s "g1")]]⟩⟩

/-- Fixture: a document whose sentence records follow the *editor's* key
convention (`sentence_id`). -/
def c10doc : SDoc :=
  ⟨"e", [], ⟨[], [[("sentence_id", Val.s "e1"), ("text", Val.s "t")],
    [("sentence_id", Val.s "e2"), ("text", Val.s "u")]]⟩⟩

/-!
Lemmas about the search loops.
-/

/-- Membership in the scan range `range(start, len(text) - len(pattern) + 1)`
of the two search functions. -/
theorem mem_searchRange {t p s i : Nat} :
    i ∈ List.range' s (t + 1 - p - s) ↔ s ≤ i ∧ i + p ≤ t := by
  rw [List.mem_range'_1]
  omega

/-- The scan loop of `fuzzy_search` over `range(s, s+n)` returns `-1` exactly
when no position passes the similarity test, and otherwise the smallest
passing position. -/
theorem fuzzySearchGo_char (text pn : List Char) (w : Nat) :
    ∀ (n s : Nat),
      (fuzzySearchGo text pn w (List.range' s n) = -1 ∧
        ∀ i, s ≤ i → i < s + n →
          ratioGtPoint9 pn (normWs ((text.drop i).take w)) = false) ∨
      (∃ i : Nat, fuzzySearchGo text pn w (List.range' s n) = (i : Int) ∧
        s ≤ i ∧ i < s + n ∧
        ratioGtPoint9 pn (normWs ((text.drop i).take w)) = true ∧
        ∀ j, s ≤ j → j < i →
          ratioGtPoint9 pn (normWs ((text.drop j).take w)) = false)
  | 0, s => by
    left
    refine ⟨rfl, ?_⟩
    intro i h1 h2
    omega
  | n + 1, s => by
    rw [List.range'_succ]
    by_cases hp : ratioGtPoint9 pn (normWs ((text.drop s).take w)) = true
    · right
      exact ⟨s, by simp [fuzzySearchGo, hp], Nat.le_refl s, by omega, hp,
        fun j h1 h2 => absurd h1 (by omega)⟩
    · have hp' : ratioGtPoint9 pn (normWs ((text.drop s).take w)) = false := by
        simpa using hp
      have step : fuzzySearchGo text pn w (s :: List.range' (s + 1) n) =
          fuzzySearchGo text pn w (List.range' (s + 1) n) := by
        simp [fuzzySearchGo, hp']
      rcases fuzzySearchGo_char text pn w n (s + 1) with ⟨h1, h2⟩ | ⟨i, h1, h2, h3, h4, h5⟩
      · left
        refine ⟨by rw [step, h1], ?_⟩
        intro i hi1 hi2
        rcases Nat.eq_or_lt_of_le hi1 with rfl | h
        · exact hp'
        · exact h2 i h (by omega)
      · right
        refine ⟨i, by rw [step, h1], by omega, by omega, h4, ?_⟩
        intro j hj1 hj2
        rcases Nat.eq_or_lt_of_le hj1 with rfl | h
        · exact hp'
        · exact h5 j h hj2

/-- Function `fuzzy_search` unfolded to its scan loop. -/
theorem fuzzy_search_eq_go (text pattern : List Char) (start_pos : Nat) :
    fuzzy_search text pattern start_pos =
      fuzzySearchGo text (normWs pattern) (pattern.length + 50)
        (List.range' start_pos (text.length + 1 - pattern.length - start_pos)) := rfl

/-- Function `pyFind` either fails or returns a position at or after `start`. -/
theorem pyFind_cases (text sub : List Char) (start : Nat) :
    pyFind text sub start = -1 ∨
      ∃ i : Nat, pyFind text sub start = (i : Int) ∧ start ≤ i := by
  unfold pyFind
  cases h : (List.range' start (text.length + 1 - sub.length - start)).find?
      (fun i => sub.isPrefixOf (text.drop i)) with
  | none => exact Or.inl rfl
  | some i =>
    refine Or.inr ⟨i, rfl, ?_⟩
    have hm := List.mem_of_find?_eq_some h
    rw [List.mem_range'_1] at hm
    exact hm.1

/-- Function `fuzzy_search` either fails or returns a position at or after
`start_pos`. -/
theorem fuzzy_search_cases (text pattern : List Char) (start_pos : Nat) :
    fuzzy_search text pattern start_pos = -1 ∨
      ∃ i : Nat, fuzzy_search text pattern start_pos = (i : Int) ∧ start_pos ≤ i := by
  rw [fuzzy_search_eq_go]
  rcases fuzzySearchGo_char text (normWs pattern) (pattern.length + 50)
      (text.length + 1 - pattern.length - start_pos) start_pos with ⟨h1, _⟩ | ⟨i, h1, h2, _⟩
  · exact Or.inl h1
  · exact Or.inr ⟨i, h1, h2⟩

/-- Unfolding of the sentence loop in the case of a successfully located
sentence: with `found.toNat = i`, the loop stores the span
`(i, i + len)` and continues with cursor `i + len`. -/
theorem sentLoop_cons_found (text : List Char) (doc_id : String) (m : List (Nat × Nat))
    (raw : List Char) (rest : List (List Char)) (idx sp : Nat) (ld : List LineRecord)
    (i : Nat)
    (he : ¬((pyStrip raw).isEmpty = true))
    (hi : (if pyFind text (pyStrip raw) sp = -1 then
        fuzzy_search text (pyStrip raw) sp else pyFind text (pyStrip raw) sp) = (i : Int)) :
    (sentLoop text doc_id m idx (raw :: rest) sp ld).2 =
      (i, i + (pyStrip raw).length,
        mkSentRecord (doc_id ++ "_s" ++ toString (idx + 1)) (pyStrip raw)
          (List.insertionSort (· ≤ ·)
            (((List.range' i (min (i + (pyStrip raw).length) text.length - i)).filterMap
                (fun p => lookupNat m p)).dedup))
          doc_id) ::
      (sentLoop text doc_id m (idx + 1) rest (i + (pyStrip raw).length)
        (updateLineData ld
          (List.insertionSort (· ≤ ·)
            (((List.range' i (min (i + (pyStrip raw).length) text.length - i)).filterMap
                (fun p => lookupNat m p)).dedup))
          (doc_id ++ "_s" ++ toString (idx + 1)))).2 := by
  have hne : ¬((if pyFind text (pyStrip raw) sp = -1 then
      fuzzy_search text (pyStrip raw) sp else pyFind text (pyStrip raw) sp) = -1) := by
    rw [hi]
    omega
  simp only [sentLoop, Bool.not_eq_true] at he ⊢
  rw [if_neg (by simp [he]), if_neg hne, hi]
  simp [Int.toNat_ofNat]

/-- Invariant of `structure_document`'s sentence loop: every stored span
starts at or after the cursor, ends at or after it starts, and consecutive
spans are ordered (`next.start ≥ previous.end`) because the cursor is
advanced to `sent_end` after each successful location. -/
theorem sentLoop_monotone (text : List Char) (doc_id : String) (m : List (Nat × Nat)) :
    ∀ (sts : List (List Char)) (idx sp : Nat) (ld : List LineRecord),
      (∀ x ∈ (sentLoop text doc_id m idx sts sp ld).2, sp ≤ x.1 ∧ x.1 ≤ x.2.1) ∧
      List.Chain' (fun a b => a.2.1 ≤ b.1) (sentLoop text doc_id m idx sts sp ld).2
  | [], idx, sp, ld => by
    simp [sentLoop]
  | raw :: rest, idx, sp, ld => by
    by_cases he : (pyStrip raw).isEmpty
    · have ih := sentLoop_monotone text doc_id m rest (idx + 1) sp ld
      simpa [sentLoop, he] using ih
    · by_cases hf : (if pyFind text (pyStrip raw) sp = -1 then
          fuzzy_search text (pyStrip raw) sp else pyFind text (pyStrip raw) sp) = -1
      · have ih := sentLoop_monotone text doc_id m rest (idx + 1) sp ld
        simpa [sentLoop, he, hf] using ih
      · have hge : ∃ i : Nat,
            (if pyFind text (pyStrip raw) sp = -1 then
              fuzzy_search text (pyStrip raw) sp else pyFind text (pyStrip raw) sp) = (i : Int) ∧
            sp ≤ i := by
          by_cases h0 : pyFind text (pyStrip raw) sp = -1
          · rw [if_pos h0]
            rw [if_pos h0] at hf
            rcases fuzzy_search_cases text (pyStrip raw) sp with h | ⟨i, h1, h2⟩
            · exact absurd h hf
            · exact ⟨i, h1, h2⟩
          · rw [if_neg h0]
            rcases pyFind_cases text (pyStrip raw) sp with h | ⟨i, h1, h2⟩
            · exact absurd h h0
            · exact ⟨i, h1, h2⟩
        obtain ⟨i, hi, hsp⟩ := hge
        rw [sentLoop_cons_found text doc_id m raw rest idx sp ld i he hi]
        have ih := sentLoop_monotone text doc_id m rest (idx + 1)
          (i + (pyStrip raw).length)
          (updateLineData ld
            (List.insertionSort (· ≤ ·)
              (((List.range' i (min (i + (pyStrip raw).length) text.length - i)).filterMap
                  (fun p => lookupNat m p)).dedup))
            (doc_id ++ "_s" ++ toString (idx + 1)))
        constructor
        · intro x hx
          rcases List.mem_cons.mp hx with rfl | hx
          · exact ⟨hsp, Nat.le_add_right _ _⟩
          · have h2 := ih.1 x hx
            exact ⟨by omega, h2.2⟩
        · rw [List.chain'_cons']
          refine ⟨?_, ih.2⟩
          intro b hb
          exact (ih.1 b (List.mem_of_mem_head? hb)).1

/-- C4: the sentences stored by `structure_document` are monotonic in source
position — the stored sentence records are exactly the loop output whose
spans `sentenceSpans` lists, and for all consecutive spans, span `i`'s start
offset is at least span `i-1`'s end offset; the search cursor only advances,
and in particular `fuzzy_search(text, pattern, start_pos)` never returns an
offset smaller than `start_pos` (its only other output is the failure
sentinel `-1`). -/
theorem C4_monotonic_spans :
    (∀ (text : List Char) (sts : List (List Char)) (doc_id title doc_type : String)
        (md : Option PyDict),
      (structure_document text sts doc_id title doc_type md).content.sentences =
        (sentLoop text doc_id (build_char_to_line_map (pySplitNl text)).1 0 sts 0
          (build_char_to_line_map (pySplitNl text)).2).2.map (fun x => x.2.2) ∧
      List.Chain' (fun a b => a.2 ≤ b.1) (sentenceSpans text sts doc_id)) ∧
    (∀ (text pattern : List Char) (start_pos : Nat),
      fuzzy_search text pattern start_pos = -1 ∨
        ∃ i : Nat, fuzzy_search text pattern start_pos = (i : Int) ∧ start_pos ≤ i) := by
  constructor
  · intro text sts doc_id title doc_type md
    constructor
    · rfl
    · unfold sentenceSpans
      rw [List.chain'_map]
      exact (sentLoop_monotone text doc_id (build_char_to_line_map (pySplitNl text)).1
        sts 0 0 (build_char_to_line_map (pySplitNl text)).2).2
  · exact fuzzy_search_cases

/-- C5, counterexample: `c5occ5` differs from the pattern `c5pat` by 7
whitespace insertions — more than 10% character-level edits of the
40-character pattern — yet `fuzzy_search` on a haystack whose occurrence of
the pattern is `c5occ5` returns offset `0`, not `-1`, because whitespace
normalization removes the edits before the similarity ratio is computed. -/
theorem C5_counterexample :
    c5occ5.filter (fun c => c ≠ '\n') = c5pat ∧
    c5occ5.length = c5pat.length + 7 ∧
    10 * 7 > c5pat.length ∧
    fuzzy_search c5hay5 c5pat 0 = 0 := by
  refine ⟨by decide, by decide, by decide, by decide⟩

/-- C5, amended: `fuzzy_search` returns the smallest index `i ≥ start_pos`
such that the whitespace-normalized window `text[i : i + len(pattern) + 50]`
has similarity ratio strictly greater than 0.9 against the
whitespace-normalized pattern, and returns `-1` when no such index exists in
`[start_pos, len(text) - len(pattern)]`; a pattern present verbatim but with
inserted newlines every 10 characters at the start of a 500-character
haystack yields a non-negative offset; but an occurrence differing by more
than 10% character-level edits need *not* yield `-1`: when the edits are
whitespace insertions, normalization removes them and the search can still
succeed (second fixture, 7 inserted newlines in a 40-character pattern,
result `0`). -/
theorem C5_fuzzy_threshold_amended :
    (∀ (text pattern : List Char) (start_pos : Nat),
      (fuzzy_search text pattern start_pos = -1 ∧
        ∀ i, start_pos ≤ i → i + pattern.length ≤ text.length →
          ratioGtPoint9 (normWs pattern)
            (normWs ((text.drop i).take (pattern.length + 50))) = false) ∨
      (∃ i : Nat, fuzzy_search text pattern start_pos = (i : Int) ∧
        start_pos ≤ i ∧ i + pattern.length ≤ text.length ∧
        ratioGtPoint9 (normWs pattern)
          (normWs ((text.drop i).take (pattern.length + 50))) = true ∧
        ∀ j, start_pos ≤ j → j < i →
          ratioGtPoint9 (normWs pattern)
            (normWs ((text.drop j).take (pattern.length + 50))) = false)) ∧
    (c5hay500.length = 500 ∧ c5occ10.filter (fun c => c ≠ '\n') = c5pat ∧
      fuzzy_search c5hay500 c5pat 0 = 0) ∧
    (c5occ5.filter (fun c => c ≠ '\n') = c5pat ∧
      c5occ5.length = c5pat.length + 7 ∧ fuzzy_search c5hay5 c5pat 0 = 0) := by
  refine ⟨?_, ⟨by decide, by decide, by decide⟩, ⟨by decide, by decide, by decide⟩⟩
  intro text pattern start_pos
  rw [fuzzy_search_eq_go]
  rcases fuzzySearchGo_char text (normWs pattern) (pattern.length + 50)
      (text.length + 1 - pattern.length - start_pos) start_pos with
    ⟨h1, h2⟩ | ⟨i, h1, h2, h3, h4, h5⟩
  · left
    refine ⟨h1, ?_⟩
    intro i hi1 hi2
    exact h2 i hi1 (by omega)
  · right
    exact ⟨i, h1, h2, by omega, h4, h5⟩

/-- Witness for C5: instantiating the least-index characterization at the
500-character fixture exhibits the concrete passing window at offset 0. -/
theorem C5_fuzzy_threshold_amended_witness :
    ratioGtPoint9 (normWs c5pat) (normWs ((c5hay500.drop 0).take (c5pat.length + 50))) = true := by
  have h0 : fuzzy_search c5hay500 c5pat 0 = 0 := C5_fuzzy_threshold_amended.2.1.2.2
  rcases C5_fuzzy_threshold_amended.1 c5hay500 c5pat 0 with ⟨h1, _⟩ | ⟨i, h1, _, _, h4, _⟩
  · rw [h0] at h1
    exact absurd h1 (by decide)
  · rw [h0] at h1
    have hz : i = 0 := by omega
    subst hz
    exact h4

/-!
C1: id numbering of the stored sentence records.
-/

/-- The ids stored by the sentence loop are `doc_id ++ "_s" ++ toString n`
for a strictly increasing selection `ks` of the 1-based positions of the
segmenter output processed from `idx` on — every processed sentence, located
or dropped, advances the position counter `sent_idx`. -/
theorem sentLoop_ids_sublist (text : List Char) (doc_id : String) (m : List (Nat × Nat)) :
    ∀ (sts : List (List Char)) (idx sp : Nat) (ld : List LineRecord),
      ∃ ks : List Nat,
        ks.Sublist (List.range' (idx + 1) sts.length) ∧
        (sentLoop text doc_id m idx sts sp ld).2.map (fun x => dictGet x.2.2 "id") =
          ks.map (fun n => some (Val.s (doc_id ++ "_s" ++ toString n)))
  | [], idx, sp, ld => ⟨[], by simp [sentLoop]⟩
  | raw :: rest, idx, sp, ld => by
    rw [show (raw :: rest).length = rest.length + 1 from rfl, List.range'_succ]
    by_cases he : (pyStrip raw).isEmpty
    · obtain ⟨ks, hs, hmap⟩ := sentLoop_ids_sublist text doc_id m rest (idx + 1) sp ld
      refine ⟨ks, ?_, ?_⟩
      · exact hs.trans (List.sublist_cons_self _ _)
      · simpa [sentLoop, he] using hmap
    · by_cases hf : (if pyFind text (pyStrip raw) sp = -1 then
          fuzzy_search text (pyStrip raw) sp else pyFind text (pyStrip raw) sp) = -1
      · obtain ⟨ks, hs, hmap⟩ := sentLoop_ids_sublist text doc_id m rest (idx + 1) sp ld
        refine ⟨ks, hs.trans (List.sublist_cons_self _ _), ?_⟩
        simpa [sentLoop, he, hf] using hmap
      · have hge : ∃ i : Nat,
            (if pyFind text (pyStrip raw) sp = -1 then
              fuzzy_search text (pyStrip raw) sp else pyFind text (pyStrip raw) sp) = (i : Int) := by
          by_cases h0 : pyFind text (pyStrip raw) sp = -1
          · rw [if_pos h0]
            rw [if_pos h0] at hf
            rcases fuzzy_search_cases text (pyStrip raw) sp with h | ⟨i, h1, _⟩
            · exact absurd h hf
            · exact ⟨i, h1⟩
          · rw [if_neg h0]
            rcases pyFind_cases text (pyStrip raw) sp with h | ⟨i, h1, _⟩
            · exact absurd h h0
            · exact ⟨i, h1⟩
        obtain ⟨i, hi⟩ := hge
        obtain ⟨ks, hs, hmap⟩ := sentLoop_ids_sublist text doc_id m rest (idx + 1)
          (i + (pyStrip raw).length)
          (updateLineData ld
            (List.insertionSort (· ≤ ·)
              (((List.range' i (min (i + (pyStrip raw).length) text.length - i)).filterMap
                  (fun p => lookupNat m p)).dedup))
            (doc_id ++ "_s" ++ toString (idx + 1)))
        refine ⟨(idx + 1) :: ks, hs.cons₂ (idx + 1), ?_⟩
        rw [sentLoop_cons_found text doc_id m raw rest idx sp ld i he hi]
        simp [mkSentRecord, dictGet, hmap]

/-- C1, counterexample: with segmenter output `["xyz", "Hello."]` over the
text `"Hello."`, the first sentence is unlocatable (exact and fuzzy search
both fail) and is dropped — yet it consumes an id number: the single stored
sentence has id `"d_s2"`, not `"d_s1"`, while `total_sentences` is `1`, so
the stored ids are not `d_s1 … d_s{total_sentences}` and the numbering has a
gap. -/
theorem C1_counterexample :
    (structure_document "Hello.".toList ["xyz".toList, "Hello.".toList] "d" "T" "source"
        none).content.sentences.map (fun s => dictGet s "id") = [some (Val.s "d_s2")] ∧
    dictGet (structure_document "Hello.".toList ["xyz".toList, "Hello.".toList] "d" "T"
        "source" none).metadata "total_sentences" = some (Val.n 1) ∧
    [some (Val.s "d_s2")] ≠ [some (Val.s "d_s1")] := by
  refine ⟨by decide, by decide, by decide⟩

/-- C1, amended: each `SentenceRecord` produced by `structure_document` has
id `{doc_id}_s{n}` where `n` is the 1-based *position of the sentence in the
segmenter output* — a counter advanced for every processed sentence, so
dropped or unlocatable sentences *do* consume an id number. The stored ids
are the image of a strictly increasing selection (a sublist of `1 … N` for
`N` input sentences); they are gap-free exactly when nothing is dropped. -/
theorem C1_ids_amended :
    ∀ (text : List Char) (sts : List (List Char)) (doc_id title doc_type : String)
      (md : Option PyDict),
      ∃ ks : List Nat,
        ks.Sublist ((List.range sts.length).map (· + 1)) ∧
        (structure_document text sts doc_id title doc_type md).content.sentences.map
            (fun s => dictGet s "id") =
          ks.map (fun n => some (Val.s (doc_id ++ "_s" ++ toString n))) := by
  intro text sts doc_id title doc_type md
  obtain ⟨ks, hs, hmap⟩ := sentLoop_ids_sublist text doc_id
    (build_char_to_line_map (pySplitNl text)).1 sts 0 0
    (build_char_to_line_map (pySplitNl text)).2
  refine ⟨ks, ?_, ?_⟩
  · have : (List.range sts.length).map (· + 1) = List.range' 1 sts.length := by
      rw [List.range'_eq_map_range]
      exact List.map_congr_left (fun a _ => Nat.add_comm 1 a) |>.symm ▸ rfl
    rw [this]
    exact hs
  · simpa [structure_document, List.map_map] using hmap

/-!
C2: metadata merging.
-/

/-- Unfolding of `dictGet` on a cons cell. -/
theorem dictGet_cons (k0 : String) (v0 : Val) (tl : PyDict) (k : String) :
    dictGet ((k0, v0) :: tl) k = if k0 = k then some v0 else dictGet tl k := rfl

/-- Lookup after the overwrite branch of `dictUpdate`. -/
theorem dictGet_map_replace (d : PyDict) (k : String) (v : Val) :
    dictGet (d.map (fun p => if p.1 = k then (k, v) else p)) k =
      if (dictGet d k).isSome then some v else none := by
  induction d with
  | nil => rfl
  | cons hd tl ih =>
    obtain ⟨k0, v0⟩ := hd
    rw [List.map_cons]
    by_cases h : k0 = k
    · subst h
      rw [show (if (k0, v0).1 = k0 then (k0, v) else (k0, v0)) = (k0, v) from by simp]
      simp [dictGet_cons]
    · rw [show (if (k0, v0).1 = k then (k, v) else (k0, v0)) = (k0, v0) from by simp [h]]
      simp only [dictGet_cons, if_neg h]
      exact ih

/-- The overwrite branch of `dictUpdate` leaves other keys unchanged. -/
theorem dictGet_map_replace_ne (d : PyDict) (k k' : String) (v : Val) (h : k' ≠ k) :
    dictGet (d.map (fun p => if p.1 = k then (k, v) else p)) k' = dictGet d k' := by
  induction d with
  | nil => rfl
  | cons hd tl ih =>
    obtain ⟨k0, v0⟩ := hd
    rw [List.map_cons]
    by_cases h0 : k0 = k
    · subst h0
      rw [show (if (k0, v0).1 = k0 then (k0, v) else (k0, v0)) = (k0, v) from by simp]
      have hne : ¬(k0 = k') := fun hc => h hc.symm
      simp only [dictGet_cons, if_neg hne, ih]
    · rw [show (if (k0, v0).1 = k then (k, v) else (k0, v0)) = (k0, v0) from by simp [h0]]
      simp only [dictGet_cons, ih]

/-- The append branch of `dictUpdate` leaves other keys unchanged. -/
theorem dictGet_append_single_ne (d : PyDict) (k k' : String) (v : Val) (h : k' ≠ k) :
    dictGet (d ++ [(k, v)]) k' = dictGet d k' := by
  induction d with
  | nil =>
    have hne : ¬(k = k') := fun hc => h hc.symm
    simp [dictGet_cons, dictGet, if_neg hne]
  | cons hd tl ih =>
    obtain ⟨k0, v0⟩ := hd
    simp only [List.cons_append, dictGet_cons, ih]

/-- The append branch of `dictUpdate` stores the new pair. -/
theorem dictGet_append_single_self (d : PyDict) (k : String) (v : Val)
    (h : dictGet d k = none) : dictGet (d ++ [(k, v)]) k = some v := by
  induction d with
  | nil => simp [dictGet_cons, dictGet]
  | cons hd tl ih =>
    obtain ⟨k0, v0⟩ := hd
    rw [dictGet_cons] at h
    by_cases h0 : k0 = k
    · rw [if_pos h0] at h
      exact absurd h (by simp)
    · rw [if_neg h0] at h
      simp only [List.cons_append, dictGet_cons, if_neg h0]
      exact ih h

/-- Function `dictUpdate` stores the assigned value at the assigned key. -/
theorem dictGet_dictUpdate_self (d : PyDict) (k : String) (v : Val) :
    dictGet (dictUpdate d k v) k = some v := by
  unfold dictUpdate
  by_cases hs : (dictGet d k).isSome
  · rw [if_pos hs, dictGet_map_replace, if_pos hs]
  · rw [if_neg hs]
    exact dictGet_append_single_self d k v (Option.not_isSome_iff_eq_none.mp hs)

/-- Function `dictUpdate` leaves other keys unchanged. -/
theorem dictGet_dictUpdate_ne (d : PyDict) (k k' : String) (v : Val) (h : k' ≠ k) :
    dictGet (dictUpdate d k v) k' = dictGet d k' := by
  unfold dictUpdate
  by_cases hs : (dictGet d k).isSome
  · rw [if_pos hs]
    exact dictGet_map_replace_ne d k k' v h
  · rw [if_neg hs]
    exact dictGet_append_single_ne d k k' v h

/-- A key outside a dictionary's key list looks up to `none`. -/
theorem dictGet_eq_none_of_not_mem (m : PyDict) (k : String)
    (h : k ∉ m.map Prod.fst) : dictGet m k = none := by
  induction m with
  | nil => rfl
  | cons hd tl ih =>
    obtain ⟨k0, v0⟩ := hd
    simp only [List.map_cons, List.mem_cons, not_or] at h
    rw [dictGet_cons, if_neg (fun hc => h.1 hc.symm)]
    exact ih h.2

/-- Folding `dictUpdate` over the caller dictionary `m` (whose keys are
unique, as in a Python dict): a key of `m` ends with `m`'s value, any other
key keeps the initial dictionary's value. -/
theorem dictGet_foldl_dictUpdate (m : PyDict) :
    ∀ (d : PyDict) (k : String), (m.map Prod.fst).Nodup →
      dictGet (m.foldl (fun acc p => dictUpdate acc p.1 p.2) d) k =
        (dictGet m k).or (dictGet d k) := by
  induction m with
  | nil =>
    intro d k _
    simp [dictGet]
  | cons hd tl ih =>
    intro d k hnd
    obtain ⟨k0, v0⟩ := hd
    simp only [List.map_cons, List.nodup_cons] at hnd
    rw [List.foldl_cons]
    rw [ih (dictUpdate d k0 v0) k hnd.2]
    by_cases h : k0 = k
    · subst h
      rw [dictGet_eq_none_of_not_mem tl k0 hnd.1, dictGet_cons, if_pos rfl,
        dictGet_dictUpdate_self]
      simp
    · rw [dictGet_cons, if_neg h, dictGet_dictUpdate_ne d k0 k v0 (fun hc => h hc.symm)]

/-- C2, counterexample: calling `structure_document` with title `"ENGINE"`
and caller metadata `{"title": "CALLER"}` yields a document whose metadata
`title` is the *caller's* value, not the engine-computed one — the source
merges with `{**engine, **(metadata or {})}`, so the caller keys overwrite
the engine-computed keys. -/
theorem C2_counterexample :
    dictGet (structure_document "Hi.".toList ["Hi.".toList] "d" "ENGINE" "source"
        (some [("title", Val.s "CALLER")])).metadata "title" = some (Val.s "CALLER") ∧
    dictGet (structure_document "Hi.".toList ["Hi.".toList] "d" "ENGINE" "source"
        (some [("title", Val.s "CALLER")])).metadata "title" ≠ some (Val.s "ENGINE") := by
  refine ⟨by decide, by decide⟩

/-- C2, amended: for every call of `structure_document` whose caller-supplied
metadata contains one of the keys `title`, `total_lines`, `total_sentences`,
`algorithm_version`, the returned document's metadata holds the *caller's*
value for that key: the caller-supplied entries take precedence over the
engine-computed ones (and this in fact holds for every caller key, the four
engine-computed names included). -/
theorem C2_metadata_amended :
    ∀ (text : List Char) (sts : List (List Char)) (doc_id title doc_type : String)
      (m : PyDict) (k : String),
      (m.map Prod.fst).Nodup →
      (k = "title" ∨ k = "total_lines" ∨ k = "total_sentences" ∨ k = "algorithm_version") →
      (dictGet m k).isSome →
      dictGet (structure_document text sts doc_id title doc_type (some m)).metadata k =
        dictGet m k := by
  intro text sts doc_id title doc_type m k hnd _ hk
  show dictGet (m.foldl (fun acc p => dictUpdate acc p.1 p.2) _) k = dictGet m k
  rw [dictGet_foldl_dictUpdate m _ k hnd]
  obtain ⟨v, hv⟩ := Option.isSome_iff_exists.mp hk
  rw [hv]
  rfl

/-- Witness for C2 (amended): with caller metadata `{"title": "CALLER"}`, the
resulting document's `title` metadata equals the caller's entry. -/
theorem C2_metadata_amended_witness :
    dictGet (structure_document "Hi.".toList ["Hi.".toList] "d" "ENGINE" "source"
        (some [("title", Val.s "CALLER")])).metadata "title" =
      dictGet [("title", Val.s "CALLER")] "title" :=
  C2_metadata_amended "Hi.".toList ["Hi.".toList] "d" "ENGINE" "source"
    [("title", Val.s "CALLER")] "title" (by decide) (Or.inl rfl) (by decide)

/-!
C3: the structurer stores sentence ids under `id`, the editor reads
`sentence_id`.
-/

/-- Every sentence record stored by the sentence loop has no `sentence_id`
key and does have an `id` key. -/
theorem sentLoop_sent_keys (text : List Char) (doc_id : String) (m : List (Nat × Nat)) :
    ∀ (sts : List (List Char)) (idx sp : Nat) (ld : List LineRecord),
      ∀ x ∈ (sentLoop text doc_id m idx sts sp ld).2,
        dictGet x.2.2 "sentence_id" = none ∧ (dictGet x.2.2 "id").isSome
  | [], idx, sp, ld => by simp [sentLoop]
  | raw :: rest, idx, sp, ld => by
    by_cases he : (pyStrip raw).isEmpty
    · have ih := sentLoop_sent_keys text doc_id m rest (idx + 1) sp ld
      simpa [sentLoop, he] using ih
    · by_cases hf : (if pyFind text (pyStrip raw) sp = -1 then
          fuzzy_search text (pyStrip raw) sp else pyFind text (pyStrip raw) sp) = -1
      · have ih := sentLoop_sent_keys text doc_id m rest (idx + 1) sp ld
        simpa [sentLoop, he, hf] using ih
      · have hge : ∃ i : Nat,
            (if pyFind text (pyStrip raw) sp = -1 then
              fuzzy_search text (pyStrip raw) sp else pyFind text (pyStrip raw) sp) = (i : Int) := by
          by_cases h0 : pyFind text (pyStrip raw) sp = -1
          · rw [if_pos h0]
            rw [if_pos h0] at hf
            rcases fuzzy_search_cases text (pyStrip raw) sp with h | ⟨i, h1, _⟩
            · exact absurd h hf
            · exact ⟨i, h1⟩
          · rw [if_neg h0]
            rcases pyFind_cases text (pyStrip raw) sp with h | ⟨i, h1, _⟩
            · exact absurd h h0
            · exact ⟨i, h1⟩
        obtain ⟨i, hi⟩ := hge
        rw [sentLoop_cons_found text doc_id m raw rest idx sp ld i he hi]
        intro x hx
        rcases List.mem_cons.mp hx with rfl | hx
        · exact ⟨by simp [mkSentRecord, dictGet], by simp [mkSentRecord, dictGet]⟩
        · exact sentLoop_sent_keys text doc_id m rest (idx + 1) _ _ x hx

/-- Binding an exception in the `Except` monad propagates it. -/
theorem except_error_bind {α β : Type} (e : PyErr) (f : α → Except PyErr β) :
    (Except.error e >>= f) = Except.error e := rfl

/-- Binding a success in the `Except` monad applies the continuation. -/
theorem except_ok_bind {α β : Type} (a : α) (f : α → Except PyErr β) :
    (Except.ok a >>= f) = f a := rfl

/-- A sentence list whose head lacks the `sentence_id` key makes the deletion
comprehension raise `KeyError`. -/
theorem filterRemaining_keyError (sents : List Sent) (ids : List String)
    (hne : sents ≠ [])
    (h0 : ∀ s ∈ sents, dictGet s "sentence_id" = none) :
    filterRemaining sents ids = .error (.keyError "sentence_id") := by
  cases sents with
  | nil => exact absurd rfl hne
  | cons s rest =>
    have hs := h0 s (List.mem_cons_self s rest)
    simp only [filterRemaining, getItem, hs]
    rfl

/-- A sentence list whose head lacks the `sentence_id` key makes the update
loop raise `KeyError`. -/
theorem updateSentLoop_keyError (sents : List Sent) (sid nt : String)
    (hne : sents ≠ [])
    (h0 : ∀ s ∈ sents, dictGet s "sentence_id" = none) :
    updateSentLoop sents sid nt = .error (.keyError "sentence_id") := by
  cases sents with
  | nil => exact absurd rfl hne
  | cons s rest =>
    have hs := h0 s (List.mem_cons_self s rest)
    simp only [updateSentLoop, getItem, hs]
    rfl

/-- A sentence list whose head lacks the `sentence_id` key makes the position
resolution of `insert_sentence` raise `KeyError`. -/
theorem findInsertIdx_keyError (sents : List Sent) (p : String) (n : Nat)
    (hne : sents ≠ [])
    (h0 : ∀ s ∈ sents, dictGet s "sentence_id" = none) :
    findInsertIdx sents p n = .error (.keyError "sentence_id") := by
  cases sents with
  | nil => exact absurd rfl hne
  | cons s rest =>
    have hs := h0 s (List.mem_cons_self s rest)
    simp only [findInsertIdx, getItem, hs]
    rfl

/-- C3: every sentence record produced by `structure_document` stores its
identifier under the key `id` and has no `sentence_id` key, while every
`StructuredDocumentEditor` operation reads `sentence_id`; therefore, on every
document returned by `structure_document` with at least one sentence,
`delete_sentences_from_doc` raises `KeyError`, and `update_sentence_in_doc`
and `insert_sentence_to_doc` with a string position never match any
structurer-produced sentence id — both raise the same `KeyError` at the first
sentence instead of ever finding a match. -/
theorem C3_editor_key_mismatch :
    ∀ (text : List Char) (sts : List (List Char)) (doc_id title doc_type : String)
      (md : Option PyDict),
      (structure_document text sts doc_id title doc_type md).content.sentences ≠ [] →
      (∀ s ∈ (structure_document text sts doc_id title doc_type md).content.sentences,
          dictGet s "sentence_id" = none ∧ (dictGet s "id").isSome) ∧
      (∀ ids, delete_sentences_from_doc
          (structure_document text sts doc_id title doc_type md) ids =
        .error (.keyError "sentence_id")) ∧
      (∀ sid nt, update_sentence_in_doc
          (structure_document text sts doc_id title doc_type md) sid nt =
        .error (.keyError "sentence_id")) ∧
      (∀ ns p plc, insert_sentence_to_doc
          (structure_document text sts doc_id title doc_type md) (ns : String) (.str p) plc =
        .error (.keyError "sentence_id")) := by
  intro text sts doc_id title doc_type md hne
  have hkeys : ∀ s ∈ (structure_document text sts doc_id title doc_type md).content.sentences,
      dictGet s "sentence_id" = none ∧ (dictGet s "id").isSome := by
    intro s hs
    have : ∃ x ∈ (sentLoop text doc_id (build_char_to_line_map (pySplitNl text)).1 0 sts 0
        (build_char_to_line_map (pySplitNl text)).2).2, x.2.2 = s := by
      simpa [structure_document] using hs
    obtain ⟨x, hx, rfl⟩ := this
    exact sentLoop_sent_keys text doc_id _ sts 0 0 _ x hx
  have hnone : ∀ s ∈ (structure_document text sts doc_id title doc_type md).content.sentences,
      dictGet s "sentence_id" = none := fun s hs => (hkeys s hs).1
  refine ⟨hkeys, ?_, ?_, ?_⟩
  · intro ids
    unfold delete_sentences_from_doc StructuredDocumentEditor.delete_sentences
    rw [filterRemaining_keyError _ ids hne hnone]
    rfl
  · intro sid nt
    unfold update_sentence_in_doc StructuredDocumentEditor.update_sentence
    rw [updateSentLoop_keyError _ sid nt hne hnone]
    rfl
  · intro ns p plc
    simp only [insert_sentence_to_doc, StructuredDocumentEditor.insert_sentence,
      findInsertIdx_keyError _ p 0 hne hnone]
    rfl

/-- Witness for C3: on the structurer output for `"Hi."`, deletion raises
`KeyError('sentence_id')`. -/
theorem C3_editor_key_mismatch_witness :
    delete_sentences_from_doc
        (structure_document "Hi.".toList ["Hi.".toList] "d" "T" "source" none) ["d_s1"] =
      .error (.keyError "sentence_id") :=
  (C3_editor_key_mismatch "Hi.".toList ["Hi.".toList] "d" "T" "source" none
    (by decide)).2.1 ["d_s1"]

/-!
C6: the line/character indexer.
-/

/-- Function `pySplitNl` never returns the empty list. -/
theorem pySplitNl_ne_nil (t : List Char) : pySplitNl t ≠ [] := by
  cases t with
  | nil => simp [pySplitNl]
  | cons c rest =>
    simp only [pySplitNl]
    by_cases h : c = '\n'
    · simp [h]
    · rw [if_neg h]
      cases hr : pySplitNl rest with
      | nil => simp
      | cons h' t' => simp

/-- Splitting on `'\n'` yields one segment more than the number of
newlines. -/
theorem pySplitNl_length (t : List Char) : (pySplitNl t).length = t.count '\n' + 1 := by
  induction t with
  | nil => rfl
  | cons c rest ih =>
    simp only [pySplitNl]
    by_cases h : c = '\n'
    · subst h
      simp [List.count_cons, ih]
    · rw [if_neg h]
      cases hr : pySplitNl rest with
      | nil => exact absurd hr (pySplitNl_ne_nil rest)
      | cons h' t' =>
        rw [hr] at ih
        simp only [List.length_cons] at ih ⊢
        rw [List.count_cons, if_neg (by simpa using h)]
        omega

/-- The record list produced by `buildAux` has one record per segment. -/
theorem buildAux_length (segs : List (List Char)) :
    ∀ (ln pos : Nat), (buildAux segs ln pos).2.length = segs.length := by
  induction segs with
  | nil => intro ln pos; rfl
  | cons seg rest ih =>
    intro ln pos
    simp only [buildAux, List.length_cons, ih]

/-- The `k`-th record produced by `buildAux`: line number `ln + k`, text the
`k`-th segment, start the accumulated offset (segment lengths plus one
skipped delimiter per earlier segment), end `start + len`, empty
`sentence_ids`. -/
theorem buildAux_get? (segs : List (List Char)) :
    ∀ (ln pos k : Nat), k < segs.length →
      (buildAux segs ln pos).2.get? k =
        some ⟨ln + k, segs.getD k [],
          pos + ((segs.take k).map List.length).sum + k,
          pos + ((segs.take k).map List.length).sum + k + (segs.getD k []).length, []⟩ := by
  induction segs with
  | nil =>
    intro ln pos k h
    exact absurd h (by simp)
  | cons seg rest ih =>
    intro ln pos k h
    cases k with
    | zero => simp [buildAux]
    | succ k =>
      have hk : k < rest.length := by simpa using h
      simp only [buildAux, List.get?_cons_succ]
      rw [ih (ln + 1) (pos + seg.length + 1) k hk]
      have h1 : ln + 1 + k = ln + (k + 1) := by omega
      have h2 : pos + seg.length + 1 + ((rest.take k).map List.length).sum + k =
          pos + (((seg :: rest).take (k + 1)).map List.length).sum + (k + 1) := by
        simp only [List.take_succ_cons, List.map_cons, List.sum_cons]
        omega
      simp only [List.getD_cons_succ, h1, h2]

/-- Lookup in a block of consecutive keys mapped to `v`, followed by a
tail. -/
theorem lookupNat_range'_map (v : Nat) (tail : List (Nat × Nat)) :
    ∀ (n pos p : Nat),
      lookupNat ((List.range' pos n).map (fun q => (q, v)) ++ tail) p =
        if pos ≤ p ∧ p < pos + n then some v else lookupNat tail p := by
  intro n
  induction n with
  | zero =>
    intro pos p
    rw [if_neg (by omega)]
    rfl
  | succ n ih =>
    intro pos p
    rw [List.range'_succ]
    by_cases h : pos = p
    · subst h
      simp only [List.map_cons, List.cons_append, lookupNat, if_pos rfl]
      rw [if_pos (And.intro (Nat.le_refl pos) (by omega))]
      simp
    · simp only [List.map_cons, List.cons_append, List.append_eq, lookupNat, if_neg h]
      rw [ih (pos + 1) p]
      by_cases h2 : pos + 1 ≤ p ∧ p < pos + 1 + n
      · rw [if_pos h2, if_pos (by omega)]
      · rw [if_neg h2, if_neg (by omega)]

/-- Positions before the running offset are unmapped. -/
theorem buildAux_lookup_lt (segs : List (List Char)) :
    ∀ (ln pos p : Nat), p < pos → lookupNat (buildAux segs ln pos).1 p = none := by
  induction segs with
  | nil => intro ln pos p _; rfl
  | cons seg rest ih =>
    intro ln pos p h
    simp only [buildAux]
    rw [lookupNat_range'_map, if_neg (by omega)]
    exact ih (ln + 1) (pos + seg.length + 1) p (by omega)

/-- Every offset strictly inside the `k`-th segment maps to line `ln + k`. -/
theorem buildAux_lookup_some (segs : List (List Char)) :
    ∀ (ln pos k p : Nat), k < segs.length →
      pos + ((segs.take k).map List.length).sum + k ≤ p →
      p < pos + ((segs.take k).map List.length).sum + k + (segs.getD k []).length →
      lookupNat (buildAux segs ln pos).1 p = some (ln + k) := by
  induction segs with
  | nil =>
    intro ln pos k p h
    exact absurd h (by simp)
  | cons seg rest ih =>
    intro ln pos k p hk h1 h2
    cases k with
    | zero =>
      simp only [List.take_zero, List.map_nil, List.sum_nil, List.getD_cons_zero] at h1 h2
      simp only [buildAux]
      rw [lookupNat_range'_map, if_pos (by omega)]
      simp
    | succ k =>
      have hk' : k < rest.length := by simpa using hk
      simp only [List.take_succ_cons, List.map_cons, List.sum_cons, List.getD_cons_succ] at h1 h2
      simp only [buildAux]
      rw [lookupNat_range'_map, if_neg (by omega)]
      have := ih (ln + 1) (pos + seg.length + 1) k p hk' (by omega) (by omega)
      rw [this]
      congr 1
      omega

/-- The offset one past the end of the `k`-th segment (the dropped newline's
position) is unmapped. -/
theorem buildAux_lookup_end_none (segs : List (List Char)) :
    ∀ (ln pos k : Nat), k < segs.length →
      lookupNat (buildAux segs ln pos).1
        (pos + ((segs.take k).map List.length).sum + k + (segs.getD k []).length) = none := by
  induction segs with
  | nil =>
    intro ln pos k h
    exact absurd h (by simp)
  | cons seg rest ih =>
    intro ln pos k hk
    cases k with
    | zero =>
      simp only [List.take_zero, List.map_nil, List.sum_nil, List.getD_cons_zero]
      simp only [buildAux]
      rw [lookupNat_range'_map, if_neg (by omega)]
      exact buildAux_lookup_lt rest (ln + 1) (pos + seg.length + 1) _ (by omega)
    | succ k =>
      have hk' : k < rest.length := by simpa using hk
      simp only [List.take_succ_cons, List.map_cons, List.sum_cons, List.getD_cons_succ]
      simp only [buildAux]
      rw [lookupNat_range'_map, if_neg (by omega)]
      have := ih (ln + 1) (pos + seg.length + 1) k hk'
      rw [show pos + (seg.length + ((rest.take k).map List.length).sum) + (k + 1) +
          (rest.getD k []).length =
        pos + seg.length + 1 + ((rest.take k).map List.length).sum + k +
          (rest.getD k []).length from by omega]
      exact this

/-- C6: over `text.split('\n')`, `build_char_to_line_map` produces exactly
`count('\n') + 1` LineRecords — exactly one record, with empty text, for the
empty string — where the `k`-th record (0-based `k` here, 1-based line number
`k+1`) has `start` equal to the sum of the lengths of the preceding segments
plus `k` skipped delimiters, `end = start + len(segment)`, and the
`char_to_line` map sends every offset in `[start, end)` to line `k+1` while
leaving the newline offsets (`end` of each segment) unmapped. -/
theorem C6_char_to_line_map :
    (∀ text : List Char,
      (build_char_to_line_map (pySplitNl text)).2.length = text.count '\n' + 1) ∧
    (∀ (lines_text : List (List Char)) (k : Nat), k < lines_text.length →
      (build_char_to_line_map lines_text).2.get? k =
        some ⟨k + 1, lines_text.getD k [],
          ((lines_text.take k).map List.length).sum + k,
          ((lines_text.take k).map List.length).sum + k + (lines_text.getD k []).length, []⟩) ∧
    (∀ (lines_text : List (List Char)) (k p : Nat), k < lines_text.length →
      ((lines_text.take k).map List.length).sum + k ≤ p →
      p < ((lines_text.take k).map List.length).sum + k + (lines_text.getD k []).length →
      lookupNat (build_char_to_line_map lines_text).1 p = some (k + 1)) ∧
    (∀ (lines_text : List (List Char)) (k : Nat), k < lines_text.length →
      lookupNat (build_char_to_line_map lines_text).1
        (((lines_text.take k).map List.length).sum + k + (lines_text.getD k []).length) =
        none) ∧
    build_char_to_line_map (pySplitNl []) = ([], [⟨1, [], 0, 0, []⟩]) := by
  refine ⟨?_, ?_, ?_, ?_, by decide⟩
  · intro text
    rw [build_char_to_line_map, buildAux_length, pySplitNl_length]
  · intro lines_text k h
    rw [build_char_to_line_map, buildAux_get? lines_text 1 0 k h]
    have h1 : 1 + k = k + 1 := by omega
    have h2 : 0 + ((lines_text.take k).map List.length).sum + k =
        ((lines_text.take k).map List.length).sum + k := by omega
    rw [h1, h2]
  · intro lines_text k p hk h1 h2
    rw [build_char_to_line_map]
    have := buildAux_lookup_some lines_text 1 0 k p hk (by omega) (by omega)
    rw [this]
    congr 1
    omega
  · intro lines_text k hk
    rw [build_char_to_line_map]
    have := buildAux_lookup_end_none lines_text 1 0 k hk
    rw [show ((lines_text.take k).map List.length).sum + k + (lines_text.getD k []).length =
      0 + ((lines_text.take k).map List.length).sum + k + (lines_text.getD k []).length
      from by omega]
    exact this

/-- Witness for C6: on the two-line text `"ab\ncd"`, the indexer yields two
records (`1 + 1` newline count), the second record starts at offset 3, offset
4 maps to line 2, and the newline offset 2 is unmapped. -/
theorem C6_char_to_line_map_witness :
    (build_char_to_line_map (pySplitNl "ab\ncd".toList)).2.length =
      ("ab\ncd".toList.count '\n') + 1 ∧
    (build_char_to_line_map (pySplitNl "ab\ncd".toList)).2.get? 1 =
      some ⟨2, "cd".toList, 3, 5, []⟩ ∧
    lookupNat (build_char_to_line_map (pySplitNl "ab\ncd".toList)).1 4 = some 2 ∧
    lookupNat (build_char_to_line_map (pySplitNl "ab\ncd".toList)).1 2 = none := by
  refine ⟨C6_char_to_line_map.1 "ab\ncd".toList, ?_, ?_, ?_⟩
  · have h := C6_char_to_line_map.2.1 (pySplitNl "ab\ncd".toList) 1 (by decide)
    rw [h]
    decide
  · have h := C6_char_to_line_map.2.2.1 (pySplitNl "ab\ncd".toList) 1 4 (by decide)
      (by decide) (by decide)
    rw [h]
  · have h := C6_char_to_line_map.2.2.2.1 (pySplitNl "ab\ncd".toList) 0 (by decide)
    rw [show (2 : Nat) =
      (((pySplitNl "ab\ncd".toList).take 0).map List.length).sum + 0 +
        ((pySplitNl "ab\ncd".toList).getD 0 []).length from by decide]
    exact h

/-!
C7 and C8: the mapping validator.
-/

/-- When every sentence carries an `id` key, collecting the ids succeeds and
yields exactly the stored id values. -/
theorem collectIdsSents_ok (sents : List Sent)
    (h : ∀ s ∈ sents, (dictGet s "id").isSome) :
    collectIdsSents sents = .ok (sents.filterMap (fun s => dictGet s "id")) := by
  induction sents with
  | nil => rfl
  | cons s rest ih =>
    obtain ⟨v, hv⟩ := Option.isSome_iff_exists.mp (h s (List.mem_cons_self s rest))
    have ht := ih (fun x hx => h x (List.mem_cons_of_mem s hx))
    simp only [collectIdsSents, getItem, hv, ht, List.filterMap_cons]
    rfl

/-- When every sentence of every document carries an `id` key, the id
collection of the validator succeeds and yields all stored id values. -/
theorem collectIds_ok (docs : List SDoc)
    (h : ∀ d ∈ docs, ∀ s ∈ d.content.sentences, (dictGet s "id").isSome) :
    collectIds docs =
      .ok (docs.flatMap (fun d => d.content.sentences.filterMap (fun s => dictGet s "id"))) := by
  induction docs with
  | nil => rfl
  | cons d rest ih =>
    have hd := collectIdsSents_ok d.content.sentences (h d (List.mem_cons_self d rest))
    have ht := ih (fun x hx => h x (List.mem_cons_of_mem d hx))
    simp only [collectIds, hd, ht, List.flatMap_cons]
    rfl

/-- Length of a `flatMap` of conditional singletons. -/
theorem flatMapIf_length {α : Type} (l : List α) (q : α → Prop) [DecidablePred q]
    (f : α → String) :
    (l.flatMap (fun x => if q x then [] else [f x])).length =
      l.countP (fun x => decide ¬(q x)) := by
  induction l with
  | nil => rfl
  | cons x rest ih =>
    simp only [List.flatMap_cons, List.length_append, ih, List.countP_cons]
    by_cases h : q x
    · simp [h]
    · simp [h]
      omega

/-- One existence error per nonexistent referenced id: the error list of one
direction map has exactly one entry for each key whose id is unknown and one
for each listed id that is unknown. -/
theorem existenceErrors_length (m : List (String × List String)) (keyIds valIds : List Val)
    (kMsg vMsg : String) :
    (existenceErrors m keyIds valIds kMsg vMsg).length =
      m.countP (fun p => decide (Val.s p.1 ∉ keyIds)) +
        (m.flatMap Prod.snd).countP (fun x => decide (Val.s x ∉ valIds)) := by
  induction m with
  | nil => rfl
  | cons p rest ih =>
    simp only [existenceErrors, List.flatMap_cons, List.length_append] at ih ⊢
    rw [List.countP_cons, List.countP_append]
    have h1 : (if Val.s p.1 ∈ keyIds then ([] : List String) else [kMsg ++ p.1]).length =
        if decide (Val.s p.1 ∉ keyIds) = true then 1 else 0 := by
      by_cases h : Val.s p.1 ∈ keyIds
      · simp [h]
      · simp [h]
    have h2 := flatMapIf_length p.2 (fun x => Val.s x ∈ valIds) (fun x => vMsg ++ x)
    rw [h1, h2, ih]
    omega

/-- One warning per forward pair whose reverse entry is missing. -/
theorem consistencyWarnings_length (mappings : Mappings) :
    (consistencyWarnings mappings).length =
      (mappings.generated_doc_to_source_doc.flatMap
          (fun p => p.2.map (fun s => (p.1, s)))).countP
        (fun q => decide (q.1 ∉ mapGet mappings.source_doc_to_generated_doc q.2)) := by
  unfold consistencyWarnings
  induction mappings.generated_doc_to_source_doc with
  | nil => rfl
  | cons p rest ih =>
    simp only [List.flatMap_cons, List.length_append, List.countP_append, ih]
    have : (p.2.flatMap (fun source_id =>
        if p.1 ∈ mapGet mappings.source_doc_to_generated_doc source_id then []
        else ["양방향 불일치: " ++ p.1 ++ " → " ++ source_id ++ "는 있지만 역방향 매핑 없음"])).length =
        (p.2.map (fun s => (p.1, s))).countP
          (fun q => decide (q.1 ∉ mapGet mappings.source_doc_to_generated_doc q.2)) := by
      induction p.2 with
      | nil => rfl
      | cons s srest ihs =>
        simp only [List.flatMap_cons, List.length_append, List.map_cons, List.countP_cons, ihs]
        by_cases h : p.1 ∈ mapGet mappings.source_doc_to_generated_doc s
        · simp [h]
        · simp [h]
          omega
    omega

/-- C7: for every mapping object and documents whose sentence records carry
the `id` key (as all structurer-produced documents do), `validate_mappings`
returns normally (never raises) with one error entry for each referenced id —
every key and every listed id, in both direction maps — that does not exist
among the corresponding documents' sentence ids; and on the fixture
`generated_doc_to_source_doc = {"g1": ["s999"]}` with `g1` existing in the
generated document and `s999` in no source document, exactly one error. -/
theorem C7_validator_unknown_ids :
    (∀ (mappings : Mappings) (srcs : List SDoc) (proc : SDoc),
      (∀ d ∈ srcs, ∀ s ∈ d.content.sentences, (dictGet s "id").isSome) →
      (∀ s ∈ proc.content.sentences, (dictGet s "id").isSome) →
      ∃ errors warnings,
        validate_mappings mappings srcs proc = .ok (errors, warnings) ∧
        errors.length =
          mappings.generated_doc_to_source_doc.countP
            (fun p => decide (Val.s p.1 ∉
              proc.content.sentences.filterMap (fun s => dictGet s "id"))) +
          (mappings.generated_doc_to_source_doc.flatMap Prod.snd).countP
            (fun x => decide (Val.s x ∉
              srcs.flatMap (fun d => d.content.sentences.filterMap (fun s => dictGet s "id")))) +
          mappings.source_doc_to_generated_doc.countP
            (fun p => decide (Val.s p.1 ∉
              srcs.flatMap (fun d => d.content.sentences.filterMap (fun s => dictGet s "id")))) +
          (mappings.source_doc_to_generated_doc.flatMap Prod.snd).countP
            (fun x => decide (Val.s x ∉
              proc.content.sentences.filterMap (fun s => dictGet s "id")))) ∧
    (validate_mappings ⟨[("g1", ["s999"])], []⟩ [c7src] c7gen =
        .ok (["존재하지 않는 소스 문장 ID: s999"],
          ["양방향 불일치: g1 → s999는 있지만 역방향 매핑 없음"]) ∧
      (["존재하지 않는 소스 문장 ID: s999"] : List String).length = 1) := by
  constructor
  · intro mappings srcs proc h1 h2
    have hs := collectIds_ok srcs h1
    have hp := collectIds_ok [proc] (by
      intro d hd
      rw [List.mem_singleton] at hd
      subst hd
      exact h2)
    simp only [List.flatMap_cons, List.flatMap_nil, List.append_nil] at hp
    have heq : validate_mappings mappings srcs proc = .ok
        (existenceErrors mappings.generated_doc_to_source_doc
            (proc.content.sentences.filterMap (fun s => dictGet s "id"))
            (srcs.flatMap (fun d => d.content.sentences.filterMap (fun s => dictGet s "id")))
            "존재하지 않는 처리 문서 문장 ID: " "존재하지 않는 소스 문장 ID: "
          ++ existenceErrors mappings.source_doc_to_generated_doc
            (srcs.flatMap (fun d => d.content.sentences.filterMap (fun s => dictGet s "id")))
            (proc.content.sentences.filterMap (fun s => dictGet s "id"))
            "존재하지 않는 소스 문장 ID: " "존재하지 않는 처리 문서 문장 ID: ",
          consistencyWarnings mappings) := by
      simp only [validate_mappings, hs, hp]
      rfl
    refine ⟨_, _, heq, ?_⟩
    rw [List.length_append, existenceErrors_length, existenceErrors_length]
    omega
  · exact ⟨by rfl, rfl⟩

/-- Witness for C7: applying the count formula to the `s999` fixture yields
exactly one error. -/
theorem C7_validator_unknown_ids_witness :
    ∃ errors warnings,
      validate_mappings ⟨[("g1", ["s999"])], []⟩ [c7src] c7gen = .ok (errors, warnings) ∧
      errors.length = 1 := by
  obtain ⟨E, W, h1, h2⟩ := C7_validator_unknown_ids.1 ⟨[("g1", ["s999"])], []⟩ [c7src] c7gen
    (by decide) (by decide)
  refine ⟨E, W, h1, ?_⟩
  rw [h2]
  decide

/-- C8: each `(target, source)` pair implied by the forward map whose reverse
entry does not list the target produces exactly one warning and never an
error (the error list is exactly the existence errors, unaffected by
asymmetry); a fully symmetric mapping over existing ids yields zero errors
and zero warnings, while the same forward map with an empty reverse map
yields zero errors and exactly one warning mentioning both `g1` and `s1`. -/
theorem C8_validator_symmetry :
    (∀ (mappings : Mappings) (srcs : List SDoc) (proc : SDoc),
      (∀ d ∈ srcs, ∀ s ∈ d.content.sentences, (dictGet s "id").isSome) →
      (∀ s ∈ proc.content.sentences, (dictGet s "id").isSome) →
      ∃ errors warnings,
        validate_mappings mappings srcs proc = .ok (errors, warnings) ∧
        warnings = consistencyWarnings mappings ∧
        errors =
          existenceErrors mappings.generated_doc_to_source_doc
            (proc.content.sentences.filterMap (fun s => dictGet s "id"))
            (srcs.flatMap (fun d => d.content.sentences.filterMap (fun s => dictGet s "id")))
            "존재하지 않는 처리 문서 문장 ID: " "존재하지 않는 소스 문장 ID: "
          ++ existenceErrors mappings.source_doc_to_generated_doc
            (srcs.flatMap (fun d => d.content.sentences.filterMap (fun s => dictGet s "id")))
            (proc.content.sentences.filterMap (fun s => dictGet s "id"))
            "존재하지 않는 소스 문장 ID: " "존재하지 않는 처리 문서 문장 ID: " ∧
        warnings.length =
          (mappings.generated_doc_to_source_doc.flatMap
              (fun p => p.2.map (fun s => (p.1, s)))).countP
            (fun q => decide (q.1 ∉ mapGet mappings.source_doc_to_generated_doc q.2))) ∧
    validate_mappings ⟨[("g1", ["s1"])], [("s1", ["g1"])]⟩ [c7src] c7gen = .ok ([], []) ∧
    (validate_mappings ⟨[("g1", ["s1"])], []⟩ [c7src] c7gen =
        .ok ([], ["양방향 불일치: g1 → s1는 있지만 역방향 매핑 없음"]) ∧
      strHasSub "양방향 불일치: g1 → s1는 있지만 역방향 매핑 없음" "g1" = true ∧
      strHasSub "양방향 불일치: g1 → s1는 있지만 역방향 매핑 없음" "s1" = true) := by
  refine ⟨?_, by rfl, by rfl, by decide, by decide⟩
  intro mappings srcs proc h1 h2
  have hs := collectIds_ok srcs h1
  have hp := collectIds_ok [proc] (by
    intro d hd
    rw [List.mem_singleton] at hd
    subst hd
    exact h2)
  simp only [List.flatMap_cons, List.flatMap_nil, List.append_nil] at hp
  have heq : validate_mappings mappings srcs proc = .ok
      (existenceErrors mappings.generated_doc_to_source_doc
          (proc.content.sentences.filterMap (fun s => dictGet s "id"))
          (srcs.flatMap (fun d => d.content.sentences.filterMap (fun s => dictGet s "id")))
          "존재하지 않는 처리 문서 문장 ID: " "존재하지 않는 소스 문장 ID: "
        ++ existenceErrors mappings.source_doc_to_generated_doc
          (srcs.flatMap (fun d => d.content.sentences.filterMap (fun s => dictGet s "id")))
          (proc.content.sentences.filterMap (fun s => dictGet s "id"))
          "존재하지 않는 소스 문장 ID: " "존재하지 않는 처리 문서 문장 ID: ",
        consistencyWarnings mappings) := by
    simp only [validate_mappings, hs, hp]
    rfl
  exact ⟨_, _, heq, rfl, rfl, consistencyWarnings_length mappings⟩

/-- Witness for C8: applying the warning-count formula to the
empty-reverse-map fixture yields exactly one warning. -/
theorem C8_validator_symmetry_witness :
    ∃ errors warnings,
      validate_mappings ⟨[("g1", ["s1"])], []⟩ [c7src] c7gen = .ok (errors, warnings) ∧
      warnings.length = 1 := by
  obtain ⟨E, W, h1, _, _, h4⟩ := C8_validator_symmetry.1 ⟨[("g1", ["s1"])], []⟩ [c7src] c7gen
    (by decide) (by decide)
  refine ⟨E, W, h1, ?_⟩
  rw [h4]
  decide

/-!
C9: the editing entry points never write to the caller's document.
-/

/-- The freshly allocated copy sits at the old heap length. -/
theorem heapAppend_get_len (h : Heap) (x : SDoc) : (h ++ [x]).getD h.length default = x := by
  simp [List.getD, List.getElem?_concat_length]

/-- Reading an old address is unaffected by appending a copy. -/
theorem heapAppend_preserve (h : Heap) (x : SDoc) (a : Nat) (ha : a < h.length) :
    (h ++ [x]).get? a = h.get? a := by
  rw [List.get?_eq_getElem?, List.get?_eq_getElem?, List.getElem?_append, if_pos ha]

/-- Reading an old address is unaffected by appending a copy and writing the
fresh address. -/
theorem heapSet_preserve (h : Heap) (x y : SDoc) (a : Nat) (ha : a < h.length) :
    ((h ++ [x]).set h.length y).get? a = h.get? a := by
  rw [List.get?_eq_getElem?, List.get?_eq_getElem?]
  rw [List.getElem?_set_ne (by omega), List.getElem?_append, if_pos ha]

/-- C9: each editing entry point operates on a fresh deep copy: whatever the
arguments and outcome (success or a propagated exception), the heap cell of
the input document is unchanged, and on success the returned document lives
at a fresh address distinct from the input's. -/
theorem C9_editor_frame :
    ∀ (h : Heap) (a : Nat), a < h.length →
      (∀ ids, (delete_sentences_from_doc_heap h a ids).1.get? a = h.get? a ∧
        ∀ e, (delete_sentences_from_doc_heap h a ids).2 = .ok e → e = h.length ∧ e ≠ a) ∧
      (∀ ns pos plc, (insert_sentence_to_doc_heap h a ns pos plc).1.get? a = h.get? a ∧
        ∀ e, (insert_sentence_to_doc_heap h a ns pos plc).2 = .ok e → e = h.length ∧ e ≠ a) ∧
      (∀ sid nt, (update_sentence_in_doc_heap h a sid nt).1.get? a = h.get? a ∧
        ∀ e, (update_sentence_in_doc_heap h a sid nt).2 = .ok e → e = h.length ∧ e ≠ a) := by
  intro h a ha
  refine ⟨?_, ?_, ?_⟩
  · intro ids
    simp only [delete_sentences_from_doc_heap, editorInit]
    cases hdel : StructuredDocumentEditor.delete_sentences
        ((h ++ [h.getD a default]).getD h.length default) ids with
    | ok d' =>
      refine ⟨heapSet_preserve h _ d' a ha, ?_⟩
      intro e he
      simp only [Except.ok.injEq] at he
      omega
    | error err =>
      refine ⟨heapAppend_preserve h _ a ha, ?_⟩
      intro e he
      simp at he
  · intro ns pos plc
    simp only [insert_sentence_to_doc_heap, editorInit]
    cases hins : StructuredDocumentEditor.insert_sentence
        ((h ++ [h.getD a default]).getD h.length default) ns pos plc with
    | ok d' =>
      refine ⟨heapSet_preserve h _ d' a ha, ?_⟩
      intro e he
      simp only [Except.ok.injEq] at he
      omega
    | error err =>
      refine ⟨heapAppend_preserve h _ a ha, ?_⟩
      intro e he
      simp at he
  · intro sid nt
    simp only [update_sentence_in_doc_heap, editorInit]
    cases hupd : StructuredDocumentEditor.update_sentence
        ((h ++ [h.getD a default]).getD h.length default) sid nt with
    | ok d' =>
      refine ⟨heapSet_preserve h _ d' a ha, ?_⟩
      intro e he
      simp only [Except.ok.injEq] at he
      omega
    | error err =>
      refine ⟨heapAppend_preserve h _ a ha, ?_⟩
      intro e he
      simp at he

/-- Witness for C9: deleting from a one-document heap leaves the caller's
cell holding the original document. -/
theorem C9_editor_frame_witness :
    (delete_sentences_from_doc_heap [c7gen] 0 ["g1"]).1.get? 0 = some c7gen := by
  rw [((C9_editor_frame [c7gen] 0 (by decide)).1 ["g1"]).1]
  rfl

/-!
C10: delete idempotence.
-/

/-- C10, counterexample: on a structurer-produced document, deleting an id
that matches no sentence raises `KeyError` instead of being silently
ignored — the editor reads the `sentence_id` key, which the structurer never
writes. -/
theorem C10_counterexample :
    delete_sentences_from_doc
        (structure_document "Hi.".toList ["Hi.".toList] "d" "T" "source" none) ["zzz"] =
      .error (.keyError "sentence_id") ∧
    (∀ s ∈ (structure_document "Hi.".toList ["Hi.".toList] "d" "T" "source"
        none).content.sentences,
      dictGet s "sentence_id" ≠ some (Val.s "zzz")) := by
  refine ⟨by rfl, by decide⟩

/-- When every sentence carries the `sentence_id` key, the deletion
comprehension succeeds and keeps exactly the sentences whose id is not in the
given list. -/
theorem filterRemaining_ok (sents : List Sent) (ids : List String)
    (h : ∀ s ∈ sents, (dictGet s "sentence_id").isSome) :
    filterRemaining sents ids =
      .ok (sents.filter
        (fun s => !(valInStrList ((dictGet s "sentence_id").getD (Val.s "")) ids))) := by
  induction sents with
  | nil => rfl
  | cons s rest ih =>
    obtain ⟨v, hv⟩ := Option.isSome_iff_exists.mp (h s (List.mem_cons_self s rest))
    have ht := ih (fun x hx => h x (List.mem_cons_of_mem s hx))
    simp only [filterRemaining, getItem, hv, ht, List.filter_cons, Option.getD_some]
    by_cases hin : valInStrList v ids
    · simp only [except_ok_bind, hin, Bool.not_true, Bool.false_eq_true, if_true, if_false]
      rfl
    · simp only [except_ok_bind, Bool.not_eq_true] at hin ⊢
      rw [hin]
      simp only [Bool.false_eq_true, if_false, Bool.not_false, if_true]
      rfl

/-- C10, amended: on documents whose sentence records carry the editor's
`sentence_id` key, deletion is idempotent
(`delete(delete(doc, ids), ids) = delete(doc, ids)`), it never raises, ids
matching no sentence are silently ignored, and when *no* id matches the
result is the unchanged document; on structurer-produced documents (key
`id`), deletion instead raises `KeyError` as soon as one sentence exists
(the counterexample), and both sides of the idempotence equation are that
same propagated exception. -/
theorem C10_delete_idempotent_amended :
    ∀ (doc : SDoc) (ids : List String),
      (∀ s ∈ doc.content.sentences, (dictGet s "sentence_id").isSome) →
      ∃ d' : SDoc,
        delete_sentences_from_doc doc ids = .ok d' ∧
        delete_sentences_from_doc d' ids = .ok d' ∧
        d'.content.sentences = doc.content.sentences.filter
          (fun s => !(valInStrList ((dictGet s "sentence_id").getD (Val.s "")) ids)) ∧
        ((∀ s ∈ doc.content.sentences,
            valInStrList ((dictGet s "sentence_id").getD (Val.s "")) ids = false) →
          d' = doc) := by
  intro doc ids h
  have h1 := filterRemaining_ok doc.content.sentences ids h
  refine ⟨{doc with content := {doc.content with sentences := doc.content.sentences.filter (fun s => !(valInStrList ((dictGet s "sentence_id").getD (Val.s "")) ids))}}, ?_, ?_, rfl, ?_⟩
  · simp only [delete_sentences_from_doc, StructuredDocumentEditor.delete_sentences, h1]
    rfl
  · have h2 := filterRemaining_ok
      (doc.content.sentences.filter
        (fun s => !(valInStrList ((dictGet s "sentence_id").getD (Val.s "")) ids))) ids
      (fun x hx => h x (List.mem_of_mem_filter hx))
    simp only [delete_sentences_from_doc, StructuredDocumentEditor.delete_sentences, h2,
      List.filter_filter]
    simp [Bool.and_self]
  · intro hall
    have : doc.content.sentences.filter
        (fun s => !(valInStrList ((dictGet s "sentence_id").getD (Val.s "")) ids)) =
        doc.content.sentences := by
      apply List.filter_eq_self.mpr
      intro s hs
      rw [hall s hs]
      rfl
    rw [this]

/-- Witness for C10 (amended): deleting `["e2", "zzz"]` from the
editor-convention fixture succeeds (the unmatched `"zzz"` is ignored), and
deleting again returns the same document. -/
theorem C10_delete_idempotent_amended_witness :
    ∃ d' : SDoc,
      delete_sentences_from_doc c10doc ["e2", "zzz"] = .ok d' ∧
      delete_sentences_from_doc d' ["e2", "zzz"] = .ok d' := by
  obtain ⟨d', h1, h2, _, _⟩ := C10_delete_idempotent_amended c10doc ["e2", "zzz"] (by decide)
  exact ⟨d', h1, h2⟩
